import Mathlib

/-!
Verification of the `lambda-venv` command-line harness (`lambda_venv/cli.py`).

This file gives a shallow embedding of the harness:

* the JSON rendering pipeline of `CommandLineInterface.pretty_print`
  (raw / compact / pretty / colorized modes), including a model of the
  stdlib `json.dump` serializer with `sort_keys=True` and of `json.loads`
  for the values the tool can emit (JSON numbers are modelled as integers;
  floating-point numerals are outside the model);
* the exception taxonomy (`CmdExitError`, `ArgparseExitError`,
  `SystemExit`, `subprocess.CalledProcessError`, other exceptions);
* the argument grammar declared in `CommandLineInterface.run` (modelled in
  the space-separated `--flag value` form, without argparse prefix
  abbreviations), the logging configuration, the dispatch of command
  handlers, the top-level failure handler, and the module-level `run`
  wrapper.

All definitions are executable, and theorems about them are proved below
the definitions.
-/

namespace LambdaVenv

/-! ### JSON values

Model of the `Jsonable` type used by `pretty_print`: JSON null, booleans,
numbers (restricted to integers), strings, arrays and objects.  Objects
carry their key/value pairs as a list; Python dictionaries always have
distinct keys, and key order is insertion order, which `json.dump`
normalizes away under `sort_keys=True`. -/

inductive Jsonable where
  | null
  | bool (b : Bool)
  | num (n : Int)
  | str (s : String)
  | arr (xs : List Jsonable)
  | obj (kvs : List (String × Jsonable))

/- Fuel measure for the JSON parser: one unit per value plus one per
list element. -/
mutual
def jfuel : Jsonable → Nat
  | .arr xs => 1 + jfuelList xs
  | .obj kvs => 1 + jfuelKVs kvs
  | _ => 1
def jfuelList : List Jsonable → Nat
  | [] => 0
  | x :: xs => 1 + jfuel x + jfuelList xs
def jfuelKVs : List (String × Jsonable) → Nat
  | [] => 0
  | kv :: kvs => 1 + jfuel kv.2 + jfuelKVs kvs
end

/-! ### Serialization (model of `json.dump`)

`json.dump(value, f, separators=(',', ':'), sort_keys=True)` for the
compact path and `json.dump(value, f, indent=2, sort_keys=True)` for the
pretty path (cli.py lines 138-143).  The style parameter is `none` for
compact separators `(',', ':')` and `some 2` for two-space indentation
(whose separators are `(',', ': ')` with a newline after each comma). -/

/-- Decimal digit character for a value below ten. -/
def digitCh : Nat → Char
  | 0 => '0' | 1 => '1' | 2 => '2' | 3 => '3' | 4 => '4'
  | 5 => '5' | 6 => '6' | 7 => '7' | 8 => '8' | 9 => '9'
  | _ => '0'

/-- Decimal digits of a natural number, most significant first, as
emitted by the Python `int` repr. -/
def natChars (n : Nat) : List Char :=
  if _h : n < 10 then [digitCh n]
  else natChars (n / 10) ++ [digitCh (n % 10)]
decreasing_by exact Nat.div_lt_self (by omega) (by omega)

/-- Serialization of a JSON integer, as emitted by the Python `int` repr. -/
def intChars (n : Int) : List Char :=
  if n < 0 then '-' :: natChars n.natAbs else natChars n.toNat

/-- Lowercase hexadecimal digit character for a value below sixteen. -/
def hexDig : Nat → Char
  | 0 => '0' | 1 => '1' | 2 => '2' | 3 => '3' | 4 => '4'
  | 5 => '5' | 6 => '6' | 7 => '7' | 8 => '8' | 9 => '9'
  | 10 => 'a' | 11 => 'b' | 12 => 'c' | 13 => 'd' | 14 => 'e' | 15 => 'f'
  | _ => '0'

/-- Four-digit lowercase hexadecimal rendering used by the `\uXXXX`
escapes of `json.dump` (with the default `ensure_ascii=True`). -/
def hex4 (n : Nat) : List Char :=
  [hexDig (n / 4096), hexDig (n / 256 % 16), hexDig (n / 16 % 16), hexDig (n % 16)]

/-- Escaping of one character inside a JSON string literal, following
`json.encoder.py_encode_basestring_ascii`: `"` and backslash get
two-character escapes, the control characters with short escapes get
those, every other character outside `0x20..0x7e` becomes `\uXXXX`
(as a surrogate pair beyond the basic multilingual plane), and printable
ASCII is emitted verbatim. -/
def escChar (c : Char) : List Char :=
  if c = '"' then ['\\', '"']
  else if c = '\\' then ['\\', '\\']
  else if c = Char.ofNat 8 then ['\\', 'b']
  else if c = Char.ofNat 9 then ['\\', 't']
  else if c = Char.ofNat 10 then ['\\', 'n']
  else if c = Char.ofNat 12 then ['\\', 'f']
  else if c = Char.ofNat 13 then ['\\', 'r']
  else if 0x20 ≤ c.toNat ∧ c.toNat ≤ 0x7e then [c]
  else if c.toNat < 0x10000 then '\\' :: 'u' :: hex4 c.toNat
  else
    ('\\' :: 'u' :: hex4 (0xd800 + (c.toNat - 0x10000) / 1024)) ++
    ('\\' :: 'u' :: hex4 (0xdc00 + (c.toNat - 0x10000) % 1024))

/-- Escaped body of a JSON string literal. -/
def strBody : List Char → List Char
  | [] => []
  | c :: cs => escChar c ++ strBody cs

/-- Serialization of a JSON string, including the surrounding quotes. -/
def encStr (s : String) : List Char :=
  '"' :: strBody s.data ++ ['"']

/-- Newline-plus-indentation emitted after commas and brackets when an
indent is configured; empty in compact mode. -/
def nlPad (style : Option Nat) (d : Nat) : List Char :=
  match style with
  | none => []
  | some n => '\n' :: List.replicate (n * d) ' '

/-- Key separator: `':'` for the compact separator set, `': '` when an
indent is configured (the `json.dump` default in that case). -/
def kvSepChars (style : Option Nat) : List Char :=
  match style with
  | none => [':']
  | some _ => [':', ' ']

/-- Characters of the `null` literal. -/
def nullChars : List Char := ['n', 'u', 'l', 'l']

/-- Characters of the `true` literal. -/
def trueChars : List Char := ['t', 'r', 'u', 'e']

/-- Characters of the `false` literal. -/
def falseChars : List Char := ['f', 'a', 'l', 's', 'e']

mutual
/-- Serialization of a JSON value at nesting depth `d`.  Key order is
emitted exactly as stored; `render` below composes this with `canonJ`,
which performs the `sort_keys=True` sorting. -/
def dumpVal (style : Option Nat) (d : Nat) : Jsonable → List Char
  | .null => nullChars
  | .bool true => trueChars
  | .bool false => falseChars
  | .num n => intChars n
  | .str s => encStr s
  | .arr [] => ['[', ']']
  | .arr (x :: xs) =>
    '[' :: (nlPad style (d + 1) ++ dumpVal style (d + 1) x ++
      dumpItems style (d + 1) xs ++ nlPad style d ++ [']'])
  | .obj [] => ['\x7b', '\x7d']
  | .obj (kv :: kvs) =>
    '\x7b' :: (nlPad style (d + 1) ++ encStr kv.1 ++ kvSepChars style ++
      dumpVal style (d + 1) kv.2 ++ dumpMembers style (d + 1) kvs ++
      nlPad style d ++ ['\x7d'])
/-- Serialization of the second and later array items, each preceded by
the item separator. -/
def dumpItems (style : Option Nat) (d : Nat) : List Jsonable → List Char
  | [] => []
  | x :: xs => ',' :: (nlPad style d ++ dumpVal style d x ++ dumpItems style d xs)
/-- Serialization of the second and later object members, each preceded
by the item separator. -/
def dumpMembers (style : Option Nat) (d : Nat) : List (String × Jsonable) → List Char
  | [] => []
  | kv :: kvs =>
    ',' :: (nlPad style d ++ encStr kv.1 ++ kvSepChars style ++
      dumpVal style d kv.2 ++ dumpMembers style d kvs)
end

/-- Code-point lexicographic comparison of character lists; this is how
Python compares strings, and hence how `sort_keys=True` orders keys. -/
def lexLt : List Char → List Char → Bool
  | _, [] => false
  | [], _ :: _ => true
  | a :: as, b :: bs =>
    if a.toNat < b.toNat then true
    else if a.toNat = b.toNat then lexLt as bs else false

/-- Python string comparison, by code point. -/
def strLt (a b : String) : Bool := lexLt a.data b.data

/-- Insertion of a key/value pair into a key-sorted member list. -/
def insKV (p : String × Jsonable) : List (String × Jsonable) → List (String × Jsonable)
  | [] => [p]
  | q :: qs => if strLt p.1 q.1 then p :: q :: qs else q :: insKV p qs

/-- Sorting of object members by key, modelling the `sorted(items)` of
`json.dump` with `sort_keys=True` (Python dictionaries have distinct
keys, so any comparison sort yields the same result). -/
def sortKVs : List (String × Jsonable) → List (String × Jsonable)
  | [] => []
  | p :: ps => insKV p (sortKVs ps)

mutual
/-- Canonicalization: recursively sort every object by key.  Composing
`dumpVal` with this models the output of `json.dump` under
`sort_keys=True`. -/
def canonJ : Jsonable → Jsonable
  | .arr xs => .arr (canonList xs)
  | .obj kvs => .obj (sortKVs (canonKVs kvs))
  | v => v
def canonList : List Jsonable → List Jsonable
  | [] => []
  | x :: xs => canonJ x :: canonList xs
def canonKVs : List (String × Jsonable) → List (String × Jsonable)
  | [] => []
  | kv :: kvs => (kv.1, canonJ kv.2) :: canonKVs kvs
end

/-- Strict key-sortedness of a list of keys, under Python string order. -/
def keysStrictSorted : List String → Bool
  | [] => true
  | [_] => true
  | a :: b :: r => strLt a b && keysStrictSorted (b :: r)

mutual
/-- Canonical form predicate: every object has strictly sorted (hence
distinct) keys.  Canonical values are exactly the representatives of
Python dictionary values in this embedding. -/
def isCanonical : Jsonable → Bool
  | .arr xs => isCanonicalList xs
  | .obj kvs => keysStrictSorted (kvs.map Prod.fst) && isCanonicalKVs kvs
  | _ => true
def isCanonicalList : List Jsonable → Bool
  | [] => true
  | x :: xs => isCanonical x && isCanonicalList xs
def isCanonicalKVs : List (String × Jsonable) → Bool
  | [] => true
  | kv :: kvs => isCanonical kv.2 && isCanonicalKVs kvs
end

/-! ### Parsing (model of `json.loads`)

A recursive-descent parser over character lists, used to state the
round-trip law.  It follows the JSON grammar restricted to the values
the serializer above can produce (integer numerals without fraction or
exponent); objects are returned as member lists in source order, which
for duplicate-free input coincides with the dictionary `json.loads`
builds. -/

/-- JSON whitespace characters recognized by `json.loads`: space, tab,
newline, carriage return (tested by code point). -/
def isWsC (c : Char) : Bool :=
  c.toNat = 32 || c.toNat = 9 || c.toNat = 10 || c.toNat = 13

/-- Decimal digit test on code points. -/
def isDig (c : Char) : Bool :=
  48 ≤ c.toNat && c.toNat ≤ 57

/-- Numeric value of a decimal digit character. -/
def digitVal (c : Char) : Nat := c.toNat - 48

/-- Leading-whitespace removal. -/
def skipWs : List Char → List Char
  | [] => []
  | c :: cs => if isWsC c then skipWs cs else c :: cs

/-- Greedy decimal digit accumulation. -/
def parseDigits (acc : Nat) : List Char → Nat × List Char
  | [] => (acc, [])
  | c :: cs => if isDig c then parseDigits (acc * 10 + digitVal c) cs else (acc, c :: cs)

/-- Parse of a nonempty digit run. -/
def parseNat : List Char → Option (Nat × List Char)
  | [] => none
  | c :: cs => if isDig c then some (parseDigits 0 (c :: cs)) else none

/-- Value of one hexadecimal digit character (either case). -/
def hexVal (c : Char) : Option Nat :=
  if 48 ≤ c.toNat ∧ c.toNat ≤ 57 then some (c.toNat - 48)
  else if 97 ≤ c.toNat ∧ c.toNat ≤ 102 then some (c.toNat - 87)
  else if 65 ≤ c.toNat ∧ c.toNat ≤ 70 then some (c.toNat - 55)
  else none

/-- Combined value of a four-digit hexadecimal escape. -/
def hex4Val (a b c d : Char) : Option Nat :=
  (hexVal a).bind fun x => (hexVal b).bind fun y => (hexVal c).bind fun z =>
    (hexVal d).map fun w => x * 4096 + y * 256 + z * 16 + w

/-- Short escape table of the JSON string grammar. -/
def unescMap (e : Char) : Option Char :=
  if e = '"' then some '"'
  else if e = '\\' then some '\\'
  else if e = '/' then some '/'
  else if e = 'b' then some (Char.ofNat 8)
  else if e = 't' then some (Char.ofNat 9)
  else if e = 'n' then some (Char.ofNat 10)
  else if e = 'f' then some (Char.ofNat 12)
  else if e = 'r' then some (Char.ofNat 13)
  else none

mutual
/-- Parse of a JSON string body after the opening quote, up to and
including the closing quote; returns the decoded characters and the
remaining input.  Surrogate pairs in `\uXXXX` escapes are recombined,
and raw control characters are rejected as in strict `json.loads`. -/
def parseStrAux : List Char → Option (List Char × List Char)
  | [] => none
  | c :: cs =>
    if c = '"' then some ([], cs)
    else if c = '\\' then parseEsc cs
    else if c.toNat < 0x20 then none
    else (parseStrAux cs).map (fun p => (c :: p.1, p.2))
/-- Parse of the remainder of an escape sequence, after the backslash. -/
def parseEsc : List Char → Option (List Char × List Char)
  | [] => none
  | e :: cs₁ =>
    if e = 'u' then parseHexEsc cs₁
    else (unescMap e).bind fun u => (parseStrAux cs₁).map (fun p => (u :: p.1, p.2))
/-- Parse of the remainder of a `\uXXXX` escape, after the `u`. -/
def parseHexEsc : List Char → Option (List Char × List Char)
  | a :: b :: c2 :: d2 :: cs₂ =>
    (hex4Val a b c2 d2).bind fun n =>
      if 0xd800 ≤ n ∧ n < 0xdc00 then parseLowSurrogate n cs₂
      else if 0xdc00 ≤ n ∧ n < 0xe000 then none
      else (parseStrAux cs₂).map (fun p => (Char.ofNat n :: p.1, p.2))
  | _ => none
/-- Parse of the low-surrogate escape that must follow a high-surrogate
`\uXXXX` escape with value `n`. -/
def parseLowSurrogate (n : Nat) : List Char → Option (List Char × List Char)
  | e2 :: u2 :: a3 :: b3 :: c3 :: d3 :: cs₃ =>
    (if e2 = '\\' ∧ u2 = 'u' then
      (hex4Val a3 b3 c3 d3).bind fun m =>
        if 0xdc00 ≤ m ∧ m < 0xe000 then
          (parseStrAux cs₃).map
            (fun p =>
              (Char.ofNat (0x10000 + (n - 0xd800) * 1024 + (m - 0xdc00)) :: p.1, p.2))
        else none
    else none)
  | _ => none
end

/-- Fixed-prefix recognizer used for the `null` / `true` / `false`
literals. -/
def expectChars : List Char → List Char → Option (List Char)
  | [], cs => some cs
  | p :: ps, c :: cs => if c = p then expectChars ps cs else none
  | _ :: _, [] => none

mutual
/-- Fueled parse of one JSON value.  The fuel only bounds nesting and
list length; `jfuel` of the parsed value always suffices. -/
def parseValue : Nat → List Char → Option (Jsonable × List Char)
  | 0, _ => none
  | f + 1, cs =>
    match cs with
    | [] => none
    | c :: r =>
      if c = 'n' then (expectChars ['u', 'l', 'l'] r).map (fun r2 => (.null, r2))
      else if c = 't' then (expectChars ['r', 'u', 'e'] r).map (fun r2 => (.bool true, r2))
      else if c = 'f' then (expectChars ['a', 'l', 's', 'e'] r).map (fun r2 => (.bool false, r2))
      else if c = '"' then (parseStrAux r).map (fun p => (.str (String.mk p.1), p.2))
      else if c = '[' then
        let r1 := skipWs r
        if r1.head? = some ']' then some (.arr [], r1.tail)
        else
          (parseValue f r1).bind fun p =>
            (parseArrTail f (skipWs p.2)).map fun q => (.arr (p.1 :: q.1), q.2)
      else if c = '\x7b' then
        let r1 := skipWs r
        if r1.head? = some '\x7d' then some (.obj [], r1.tail)
        else
          (parseMember f r1).bind fun p =>
            (parseObjTail f (skipWs p.2)).map fun q => (.obj (p.1 :: q.1), q.2)
      else if c = '-' then
        (parseNat r).map (fun p => (.num (-(p.1 : Int)), p.2))
      else if isDig c then
        (parseNat (c :: r)).map (fun p => (.num (p.1 : Int), p.2))
      else none
/-- Fueled parse of the remainder of an array after the first item:
either the closing bracket or a comma followed by an item. -/
def parseArrTail : Nat → List Char → Option (List Jsonable × List Char)
  | 0, _ => none
  | f + 1, cs =>
    if cs.head? = some ']' then some ([], cs.tail)
    else if cs.head? = some ',' then
      (parseValue f (skipWs cs.tail)).bind fun p =>
        (parseArrTail f (skipWs p.2)).map fun q => (p.1 :: q.1, q.2)
    else none
/-- Fueled parse of one object member: a string key, a colon, a value. -/
def parseMember : Nat → List Char → Option ((String × Jsonable) × List Char)
  | 0, _ => none
  | f + 1, cs =>
    match cs with
    | '"' :: r =>
      (parseStrAux r).bind fun kp =>
        let r1 := skipWs kp.2
        if r1.head? = some ':' then
          (parseValue f (skipWs r1.tail)).map fun vp => ((String.mk kp.1, vp.1), vp.2)
        else none
    | _ => none
/-- Fueled parse of the remainder of an object after the first member. -/
def parseObjTail : Nat → List Char → Option (List (String × Jsonable) × List Char)
  | 0, _ => none
  | f + 1, cs =>
    if cs.head? = some '\x7d' then some ([], cs.tail)
    else if cs.head? = some ',' then
      (parseMember f (skipWs cs.tail)).bind fun p =>
        (parseObjTail f (skipWs p.2)).map fun q => (p.1 :: q.1, q.2)
    else none
end

/-- Top-level parse modelling `json.loads`: skip leading whitespace,
parse one value, require only whitespace afterwards. -/
def parseJson (s : String) : Option Jsonable :=
  let cs := skipWs s.data
  match parseValue (cs.length + 1) cs with
  | some (v, rest) => if skipWs rest = [] then some v else none
  | none => none

/-- Input whose head is not a decimal digit; the greedy number parse
stops exactly at such a boundary. -/
def noDigitHead : List Char → Bool
  | [] => true
  | c :: _ => !isDig c

/-- Characters that can start a serialized JSON value (the code points
of `n`, `t`, `f`, the double quote, the open brackets, the minus sign,
or a digit). -/
def goodStarter (c : Char) : Bool :=
  c.toNat = 110 || c.toNat = 116 || c.toNat = 102 || c.toNat = 34 ||
    c.toNat = 91 || c.toNat = 123 || c.toNat = 45 || isDig c

/-! ### Exceptions

Model of the Python exceptions the harness can observe.  `SystemExit`
derives from `BaseException`, not `Exception`, so the top-level
`except Exception` handler of `run()` does not catch it; this matters
because `run()` instantiates a plain `argparse.ArgumentParser`, whose
`exit()` raises `SystemExit`. -/

inductive PyExc where
  | cmdExitError (exit_code : Int) (msg : String)
  | argparseExitError (exit_code : Int) (msg : String)
  | systemExit (code : Int)
  | calledProcessError (returncode : Int) (cmd : List String)
  | otherError (msg : String)
deriving Repr, DecidableEq

/-- Construction of a `CmdExitError`: with no message, the default is
`"Command exited with return code {exit_code}"` (cli.py lines 54-58). -/
def mkCmdExitError (exit_code : Int) (msg : Option String) : PyExc :=
  .cmdExitError exit_code
    (msg.getD ("Command exited with return code " ++ toString exit_code))

/-- Test for `isinstance(ex, CmdExitError)`; `ArgparseExitError` is a
subclass of `CmdExitError` (cli.py line 60). -/
def PyExc.isCmdExitError : PyExc → Bool
  | .cmdExitError _ _ => true
  | .argparseExitError _ _ => true
  | _ => false

/-- Exit code carried by a `CmdExitError` (or subclass); unused for
other exceptions. -/
def PyExc.cmdExitCode : PyExc → Int
  | .cmdExitError c _ => c
  | .argparseExitError c _ => c
  | _ => 0

/-- Test for `isinstance(ex, Exception)`: everything here except
`SystemExit`, which derives only from `BaseException`. -/
def PyExc.isException : PyExc → Bool
  | .systemExit _ => false
  | _ => true

/-- Single-quote character, built by code point to keep source text
plain. -/
def sq : String := String.singleton (Char.ofNat 39)

/-- Python `str(list)` rendering of a list of strings, used by the
`CalledProcessError` message. -/
def pyStrList (xs : List String) : String :=
  "[" ++ String.intercalate ", " (xs.map (fun x => sq ++ x ++ sq)) ++ "]"

/-- Message of an exception, as Python `str(ex)` (the
`CalledProcessError` form models the non-negative exit status case that
`jq` produces). -/
def excMsg : PyExc → String
  | .cmdExitError _ m => m
  | .argparseExitError _ m => m
  | .systemExit c => toString c
  | .calledProcessError c cmd =>
    "Command " ++ sq ++ pyStrList cmd ++ sq ++
      " returned non-zero exit status " ++ toString c ++ "."
  | .otherError m => m

/-! ### Output renderer (model of `CommandLineInterface.pretty_print`) -/

/-- Run-scoped rendering state of the `CommandLineInterface` instance:
the mode flags and destinations assigned during `run()` configuration. -/
structure CLIState where
  raw : Bool
  compact : Bool
  colorize_stdout : Bool
  colorize_stderr : Bool
  output_file : Option String
  encoding : String
deriving Repr, DecidableEq

/-- Destination stream or file handle passed to the nested `emit_to`. -/
inductive Dest where
  | stdout
  | stderr
  | file (path : String) (encoding : String)
deriving Repr, DecidableEq

/-- Observable write effects of one render call. -/
inductive WriteEff where
  | rawWrite (s : String)
  | writeStr (dest : Dest) (s : String)
  | spawnJq (dest : Dest) (cmd : List String) (input : String)
deriving Repr, DecidableEq

/-- Colorama color code `Fore.RED`. -/
def foreRed : String := "\x1b[31m"

/-- Colorama color code `Style.RESET_ALL`. -/
def styleReset : String := "\x1b[0m"

/-- Effective colorization for a destination (cli.py line 136):
requested colorize AND the destination is stdout marked colorizable or
stderr marked colorizable; never a file. -/
def finalColorize (st : CLIState) (colorize : Bool) (dest : Dest) : Bool :=
  colorize &&
    ((match dest with | .stdout => st.colorize_stdout | _ => false) ||
     (match dest with | .stderr => st.colorize_stderr | _ => false))

/-- Text written by the non-colorized structured path for one value:
`json.dump` with sorted keys (compact separators or two-space indent)
followed by one newline (cli.py lines 138-143). -/
def emitText (compact : Bool) (v : Jsonable) : String :=
  String.mk (dumpVal (if compact then none else some 2) 0 (canonJ v) ++ ['\n'])

/-- The `jq` command line: `-c` exactly when compact, then the identity
filter (cli.py lines 146-149). -/
def jqCmd (compact : Bool) : List String :=
  ["jq"] ++ (if compact then ["-c"] else []) ++ ["."]

/-- Model of the nested `emit_to(f)` (cli.py lines 135-154): without
effective colorization, serialize and append a newline; with it, pipe
the compact serialization into a `jq` subprocess and fail with
`CalledProcessError` carrying the exit status when it is non-zero.
`jqExit` is the exit status the external `jq` process would return. -/
def emitTo (st : CLIState) (jqExit : Int) (compact colorize : Bool) (dest : Dest)
    (v : Jsonable) : Except PyExc (List WriteEff) :=
  if finalColorize st colorize dest then
    let input := String.mk (dumpVal none 0 (canonJ v))
    if jqExit ≠ 0 then .error (.calledProcessError jqExit (jqCmd compact))
    else .ok [.spawnJq dest (jqCmd compact) input]
  else .ok [.writeStr dest (emitText compact v)]

/-- Model of `CommandLineInterface.pretty_print` (cli.py lines 115-161):
resolve `raw` from the run flag; a raw string is written verbatim to the
raw stdout stream and the call returns; otherwise resolve `compact` and
`colorize` defaults, pick the destination (stdout, or a fresh file
handle when an output file is configured) and emit. -/
def prettyPrint (st : CLIState) (jqExit : Int) (value : Jsonable)
    (compact? colorize? raw? : Option Bool) : Except PyExc (List WriteEff) :=
  let raw := raw?.getD st.raw
  match value, raw with
  | .str s, true => .ok [.rawWrite s]
  | _, _ =>
    let compact := compact?.getD st.compact
    let colorize := colorize?.getD true
    match st.output_file with
    | none => emitTo st jqExit compact colorize .stdout value
    | some p => emitTo st jqExit compact colorize (.file p st.encoding) value

/-! ### Argument grammar (model of the parser declared in `run()`)

The grammar of cli.py lines 189-234, modelled in the space-separated
`--flag value` form (argparse `--flag=value` forms and unambiguous
prefix abbreviations are not modelled).  The subcommand parsers
(`version`, `test`) declare no options of their own, so after a
subcommand only `-h`/`--help` is accepted.  On help or on a grammar
error the real parser calls `exit()`, which for the plain
`argparse.ArgumentParser` used here raises `SystemExit` (status 0 for
help, 2 for errors). -/

/-- Command handler selected by the grammar: the `func` default. -/
inductive CmdFunc where
  | bare
  | version
  | test
deriving Repr, DecidableEq

/-- Parsed argument namespace with the declared defaults. -/
structure ParsedArgs where
  traceback : Bool := false
  loglevel : String := "warning"
  monochrome : Bool := false
  compact : Bool := false
  raw : Bool := false
  output_file : Option String := none
  text_encoding : String := "utf-8"
  cwd : String := "."
  aws_profile : Option String := none
  aws_region : Option String := none
  venv_dir : Option String := none
  func : CmdFunc := .bare
deriving Repr, DecidableEq

/-- Outcome of `parser.parse_args`: a namespace, or an early exit with
the status the parser passes to `exit()`. -/
inductive ParseOutcome where
  | ok (args : ParsedArgs)
  | earlyExit (code : Int)
deriving Repr, DecidableEq

/-- Valid `--loglevel` choices (cli.py line 197). -/
def logChoices : List String := ["critical", "error", "warning", "info", "debug"]

/-- Tokens accepted after a subcommand: only help. -/
def parseSub (argv : List String) (a : ParsedArgs) : ParseOutcome :=
  match argv with
  | [] => .ok a
  | t :: _ => if t = "-h" ∨ t = "--help" then .earlyExit 0 else .earlyExit 2

/-- Recursive option consumption for the main parser. -/
def parseTop : List String → ParsedArgs → ParseOutcome
  | [], a => .ok a
  | t :: rest, a =>
    if t = "-h" ∨ t = "--help" then .earlyExit 0
    else if t = "--traceback" ∨ t = "--tb" then parseTop rest { a with traceback := true }
    else if t = "--loglevel" then
      match rest with
      | v :: rest2 =>
        if v ∈ logChoices then parseTop rest2 { a with loglevel := v } else .earlyExit 2
      | [] => .earlyExit 2
    else if t = "-M" ∨ t = "--monochrome" then parseTop rest { a with monochrome := true }
    else if t = "-c" ∨ t = "--compact" then parseTop rest { a with compact := true }
    else if t = "-r" ∨ t = "--raw" then parseTop rest { a with raw := true }
    else if t = "-o" ∨ t = "--output" then
      match rest with
      | v :: rest2 => parseTop rest2 { a with output_file := some v }
      | [] => .earlyExit 2
    else if t = "--text-encoding" then
      match rest with
      | v :: rest2 => parseTop rest2 { a with text_encoding := v }
      | [] => .earlyExit 2
    else if t = "-C" ∨ t = "--cwd" then
      match rest with
      | v :: rest2 => parseTop rest2 { a with cwd := v }
      | [] => .earlyExit 2
    else if t = "-p" ∨ t = "--aws-profile" then
      match rest with
      | v :: rest2 => parseTop rest2 { a with aws_profile := some v }
      | [] => .earlyExit 2
    else if t = "--aws-region" then
      match rest with
      | v :: rest2 => parseTop rest2 { a with aws_region := some v }
      | [] => .earlyExit 2
    else if t = "-e" ∨ t = "--venv" then
      match rest with
      | v :: rest2 => parseTop rest2 { a with venv_dir := some v }
      | [] => .earlyExit 2
    else if t = "version" then parseSub rest { a with func := .version }
    else if t = "test" then parseSub rest { a with func := .test }
    else .earlyExit 2

/-- Model of `parser.parse_args(self._argv)`. -/
def parseArgs (argv : List String) : ParseOutcome :=
  parseTop argv {}

/-! ### Logging configuration (model of cli.py lines 243-253) -/

/-- Numeric logging levels of the Python `logging` module. -/
def levelNum (name : String) : Nat :=
  if name = "critical" then 50
  else if name = "error" then 40
  else if name = "warning" then 30
  else if name = "info" then 20
  else if name = "debug" then 10
  else 0

/-- State of the logging subsystem: the root logger level and the level
explicitly set on each named logger. -/
structure LogState where
  root : Nat
  level : String → Nat

/-- Initial logging state of a fresh Python process: root at WARNING,
named loggers unset (NOTSET = 0). -/
def pyLogInit : LogState := { root := 30, level := fun _ => 0 }

/-- Explicit level assignment to one named logger. -/
def setLevel (f : String → Nat) (m : String) (v : Nat) : String → Nat :=
  fun x => if x = m then v else f x

/-- The chatty external-library loggers restricted at cli.py lines
247-251. -/
def chattyModules : List String :=
  ["botocore.hooks", "botocore.parsers", "botocore.auth", "botocore.endpoint",
   "botocore.httpsession", "botocore.loaders", "botocore.retryhandler",
   "botocore.utils", "botocore.client", "botocore.session", "botocore.handlers",
   "botocore.awsrequest", "botocore.regions", "urllib3.connectionpool",
   "s3transfer.utils", "s3transfer.tasks", "s3transfer.futures"]

/-- Model of the logging configuration step (cli.py lines 243-253):
`basicConfig` sets the root level to the requested level, every chatty
module logger is forced to at least INFO (20), and `botocore.credentials`
to at least WARNING (30). -/
def configureLogging (req : Nat) (st : LogState) : LogState :=
  let st1 : LogState := { st with root := req }
  let lv := chattyModules.foldl (fun f m => setLevel f m (max req 20)) st1.level
  { root := st1.root, level := setLevel lv "botocore.credentials" (max req 30) }

/-! ### Run coordinator (model of `CommandLineInterface.run` and the
module-level `run`) -/

/-- How one call of `CommandLineInterface.run` ends: a returned exit
code, or an exception propagating out of the call. -/
inductive RunOutcome where
  | returned (rc : Int)
  | raised (ex : PyExc)
deriving Repr, DecidableEq

/-- Formatted one-line diagnostic of the top-level failure handler
(cli.py line 288), red-colorized exactly when stderr colorization is
active. -/
def errLine (colorizeStderr : Bool) (msg : String) : String :=
  (if colorizeStderr then foreRed else "") ++ "lambda-venv: error: " ++ msg ++
    (if colorizeStderr then styleReset else "")

/-- Model of the top-level `try/except` around dispatch (cli.py lines
255-289), given the dispatch outcome: a normal return is passed through;
`SystemExit` is not caught by `except Exception`; for caught exceptions
the exit code is the `CmdExitError` code or 1, and when non-zero either
the exception is re-raised (traceback mode) or one diagnostic line is
printed.  Returns the outcome and the diagnostic lines printed to
stderr. -/
def finishRun (traceback : Bool) (colorizeStderr : Bool)
    (res : Except PyExc Int) : RunOutcome × List String :=
  match res with
  | .ok rc => (.returned rc, [])
  | .error ex =>
    match ex with
    | .systemExit c => (.raised (.systemExit c), [])
    | _ =>
      let rc : Int := if ex.isCmdExitError then ex.cmdExitCode else 1
      if rc ≠ 0 then
        if traceback then (.raised ex, [])
        else (.returned rc, [errLine colorizeStderr (excMsg ex)])
      else (.returned rc, [])

/-- Ambient environment of one run: terminal capability of the standard
streams, the exit status the external `jq` would return, the package
version string, and the interpreter-dependent `vars(args)` rendering
printed by the `test` command (its Python repr includes memory
addresses, hence it is environment-supplied). -/
structure Env where
  ttyStdout : Bool
  ttyStderr : Bool
  jqExit : Int
  pkgVersion : String
  testRepr : ParsedArgs → String

/-- Dispatch of the selected command handler (cli.py line 278 via the
`func` defaults): `cmd_bare` prints "A command is required" to stderr
and returns 1; `cmd_version` pretty-prints the package version and
returns 0; `cmd_test` prints the parsed arguments and returns 0.
Returns the handler result, the render effects, and stderr lines. -/
def callHandler (env : Env) (st : CLIState) (a : ParsedArgs) :
    Except PyExc Int × List WriteEff × List String :=
  match a.func with
  | .bare => (.ok 1, [], ["A command is required"])
  | .version =>
    match prettyPrint st env.jqExit (.str env.pkgVersion) none none none with
    | .ok effs => (.ok 0, effs, [])
    | .error e => (.error e, [], [])
  | .test => (.ok 0, [.writeStr .stdout (env.testRepr a)], [])

/-- Result of one `CommandLineInterface.run` call: outcome, stderr
lines, render effects, and the logging state after configuration. -/
structure RunResult where
  outcome : RunOutcome
  stderrLines : List String
  effects : List WriteEff
  logState : LogState

/-- Model of `CommandLineInterface.run` (cli.py lines 178-289).  The
parser instantiated at line 189 is a plain `argparse.ArgumentParser`
(not the `NoExitArgumentParser` defined at lines 63-67), so a grammar
early exit raises `SystemExit`, which neither the
`except ArgparseExitError` at line 241 nor the `except Exception` at
line 279 catches: it propagates out of `run()`. -/
def runCLI (env : Env) (argv : List String) : RunResult :=
  match parseArgs argv with
  | .earlyExit code =>
    { outcome := .raised (.systemExit code), stderrLines := [], effects := [],
      logState := pyLogInit }
  | .ok args =>
    let logSt := configureLogging (levelNum args.loglevel) pyLogInit
    let st : CLIState :=
      { raw := args.raw, compact := args.compact,
        colorize_stdout := !args.monochrome && env.ttyStdout,
        colorize_stderr := !args.monochrome && env.ttyStderr,
        output_file := args.output_file, encoding := args.text_encoding }
    let h := callHandler env st args
    let fin := finishRun args.traceback st.colorize_stderr h.1
    { outcome := fin.1, stderrLines := h.2.2 ++ fin.2, effects := h.2.1,
      logState := logSt }

/-- The `except CmdExitError` wrapper of the module-level `run` (cli.py
lines 295-300), applied to the outcome of the inner call: a raised
`CmdExitError` (or subclass) becomes its exit code; anything else is
passed through. -/
def moduleWrap (inner : RunOutcome) : RunOutcome :=
  match inner with
  | .raised ex => if ex.isCmdExitError then .returned ex.cmdExitCode else .raised ex
  | r => r

/-- Model of the module-level `run(argv)` (cli.py lines 295-300). -/
def runModule (env : Env) (argv : List String) : RunResult :=
  let r := runCLI env argv
  { r with outcome := moduleWrap r.outcome }

/-! ### Resource accessors (model of `get_aws_session` / `get_s3`)

The session constructor `create_aws_session(profile, region)` is an
external collaborator; it is modelled as a function from the
construction-attempt index to a result, so that "a later call attempts
construction again" is expressible.  Handle identity is modelled as
value equality of the opaque handle type. -/

/-- Memoization state of the accessors: the cached session and client
(cli.py lines 86-87) plus the count of constructor invocations so far
(model bookkeeping to express at-most-once construction). -/
structure AwsState (S C : Type) where
  session : Option S
  s3 : Option C
  ctorCalls : Nat

/-- Model of `get_aws_session` (cli.py lines 105-108): return the cached
session if present; otherwise invoke the constructor, caching the handle
on success and caching nothing on failure. -/
def getAwsSession {E S C : Type} (ctor : Nat → Except E S) (st : AwsState S C) :
    Except E S × AwsState S C :=
  match st.session with
  | some s => (.ok s, st)
  | none =>
    match ctor st.ctorCalls with
    | .ok s => (.ok s, { st with session := some s, ctorCalls := st.ctorCalls + 1 })
    | .error e => (.error e, { st with ctorCalls := st.ctorCalls + 1 })

/-- Model of `get_s3` (cli.py lines 110-113): return the cached client
if present; otherwise derive it from `get_aws_session()` and cache it. -/
def getS3 {E S C : Type} (ctor : Nat → Except E S) (clientOf : S → C)
    (st : AwsState S C) : Except E C × AwsState S C :=
  match st.s3 with
  | some c => (.ok c, st)
  | none =>
    match getAwsSession ctor st with
    | (.ok s, st1) => (.ok (clientOf s), { st1 with s3 := some (clientOf s) })
    | (.error e, st1) => (.error e, st1)

/-- Concrete ambient environment used for closed evaluations: no
terminal colorization, a succeeding `jq`, an arbitrary version string. -/
def envDefault : Env :=
  { ttyStdout := false, ttyStderr := false, jqExit := 0,
    pkgVersion := "1.2.3", testRepr := fun _ => "" }

/-!
## Theorems
-/

/-- Claim C1 (code evaluation at the failing input): on `--help` the
grammar parser terminates early with status 0, but `run()` does NOT
return that status: the parser built at cli.py line 189 is a plain
`argparse.ArgumentParser`, so the early exit raises `SystemExit`, which
the `except ArgparseExitError` handler (line 241) never catches, and the
exception propagates out of `run()`.  No generic diagnostic line is
printed. -/
theorem c1_help_early_exit_escapes :
    runCLI envDefault ["--help"] =
      { outcome := .raised (.systemExit 0), stderrLines := [], effects := [],
        logState := pyLogInit } ∧
    ∀ rc, (runCLI envDefault ["--help"]).outcome ≠ .returned rc := by
  constructor
  · rfl
  · intro rc h
    simp [runCLI, parseArgs, parseTop] at h

/-- Claim C2 counterexample: with traceback mode ON and a handler
failure `CmdExitError(0)`, the failure does NOT propagate out of the run
call — the handler computes `rc = 0`, skips the `rc != 0` block entirely
and returns 0.  This refutes the claim's unconditional "when traceback
mode is on, the original failure propagates". -/
theorem c2_traceback_zero_exit_counterexample :
    finishRun true false (.error (mkCmdExitError 0 none)) = (.returned 0, []) := by
  rfl

/-- Claim C2 (amended): for every handler failure that is a Python
`Exception`, the resulting code is the `CmdExitError` exit code or 1
otherwise; when that code is non-zero and traceback mode is off, exactly
one diagnostic line `"lambda-venv: error: <message>"` is written,
red-colorized exactly when stderr colorization is active; when the code
is non-zero and traceback mode is on, the original failure propagates
unmodified with no diagnostic line — never both. -/
theorem c2_failure_handler (ex : PyExc) (tb cs : Bool)
    (hex : ex.isException = true) :
    ((if ex.isCmdExitError then ex.cmdExitCode else 1) ≠ 0 → tb = false →
      finishRun tb cs (.error ex) =
        (.returned (if ex.isCmdExitError then ex.cmdExitCode else 1),
         [errLine cs (excMsg ex)])) ∧
    ((if ex.isCmdExitError then ex.cmdExitCode else 1) ≠ 0 → tb = true →
      finishRun tb cs (.error ex) = (.raised ex, [])) ∧
    errLine false (excMsg ex) = "lambda-venv: error: " ++ excMsg ex ∧
    errLine true (excMsg ex) =
      foreRed ++ "lambda-venv: error: " ++ excMsg ex ++ styleReset := by
  refine ⟨?_, ?_, by simp [errLine], by simp [errLine]⟩ <;>
    intro h0 htb <;> subst htb <;>
    cases ex <;> simp_all [finishRun, PyExc.isException, PyExc.isCmdExitError,
      PyExc.cmdExitCode]

/-- Claim C2 witness: a non-`CmdExitError` failure without traceback
mode yields exit code 1 and the single formatted diagnostic line. -/
theorem c2_failure_handler_witness :
    finishRun false false (.error (.otherError "boom")) =
      (.returned 1, [errLine false "boom"]) ∧
    errLine false "boom" = "lambda-venv: error: boom" := by
  have h := c2_failure_handler (.otherError "boom") false false rfl
  exact ⟨by simpa using h.1 (by decide) rfl, by simpa using h.2.2.1⟩

/-- Claim C4: with `raw` resolving to true (explicitly or defaulted from
the run flag) and a string value, rendering writes exactly the string,
verbatim, to the raw stdout stream and returns — regardless of any
configured output file and of the compact/colorize parameters; a
non-string value goes through the structured path even when raw is
true. -/
theorem c4_raw_string_bypass (st : CLIState) (jq : Int) (s : String)
    (c2 col2 raw2 : Option Bool) (v : Jsonable)
    (hraw : raw2.getD st.raw = true) :
    prettyPrint st jq (.str s) c2 col2 raw2 = .ok [.rawWrite s] ∧
    ((∀ t, v ≠ .str t) →
      prettyPrint st jq v c2 col2 raw2 =
        (match st.output_file with
         | none => emitTo st jq (c2.getD st.compact) (col2.getD true) .stdout v
         | some p =>
           emitTo st jq (c2.getD st.compact) (col2.getD true) (.file p st.encoding) v)) := by
  constructor
  · simp [prettyPrint, hraw]
  · intro hv
    cases v with
    | str t => exact absurd rfl (hv t)
    | null => cases hr : raw2.getD st.raw <;> simp [prettyPrint, hr]
    | bool b => cases hr : raw2.getD st.raw <;> simp [prettyPrint, hr]
    | num n => cases hr : raw2.getD st.raw <;> simp [prettyPrint, hr]
    | arr xs => cases hr : raw2.getD st.raw <;> simp [prettyPrint, hr]
    | obj kvs => cases hr : raw2.getD st.raw <;> simp [prettyPrint, hr]

/-- Claim C4 witness: a concrete raw render writes the bare string even
though an output file is configured and compact mode is on, and a
non-string value still goes through the structured path. -/
theorem c4_raw_string_bypass_witness :
    prettyPrint
      { raw := true, compact := true, colorize_stdout := false,
        colorize_stderr := false, output_file := some "out.json",
        encoding := "utf-8" } 0 (.str "hello") none none none =
      .ok [.rawWrite "hello"] ∧
    prettyPrint
      { raw := true, compact := true, colorize_stdout := false,
        colorize_stderr := false, output_file := some "out.json",
        encoding := "utf-8" } 0 .null none none none =
      emitTo
        { raw := true, compact := true, colorize_stdout := false,
          colorize_stderr := false, output_file := some "out.json",
          encoding := "utf-8" } 0 true true (.file "out.json" "utf-8") .null := by
  have h := c4_raw_string_bypass
    { raw := true, compact := true, colorize_stdout := false,
      colorize_stderr := false, output_file := some "out.json",
      encoding := "utf-8" } 0 "hello" none none none .null rfl
  exact ⟨h.1, by simpa using h.2 (fun t h2 => by simp at h2)⟩

/-- Claim C5: within one run the first successful `get_aws_session()`
memoizes the constructed handle, later calls return the identity-equal
cached handle without invoking the constructor again; a construction
failure propagates, caches nothing, and the next call attempts
construction again; `get_s3()` builds the storage client at most once,
derived from `get_aws_session()`. -/
theorem c5_session_memoization {E S C : Type} (ctor : Nat → Except E S)
    (clientOf : S → C) (st : AwsState S C) (s : S) (e : E) :
    (st.session = some s → getAwsSession ctor st = (.ok s, st)) ∧
    (st.session = none → ctor st.ctorCalls = .ok s →
      getAwsSession ctor st =
        (.ok s, { st with session := some s, ctorCalls := st.ctorCalls + 1 }) ∧
      getAwsSession ctor { st with session := some s, ctorCalls := st.ctorCalls + 1 } =
        (.ok s, { st with session := some s, ctorCalls := st.ctorCalls + 1 })) ∧
    (st.session = none → ctor st.ctorCalls = .error e →
      getAwsSession ctor st = (.error e, { st with ctorCalls := st.ctorCalls + 1 }) ∧
      (AwsState.session { st with ctorCalls := st.ctorCalls + 1 } = (none : Option S)) ∧
      getAwsSession ctor { st with ctorCalls := st.ctorCalls + 1 } =
        (match ctor (st.ctorCalls + 1) with
         | .ok s2 =>
           (.ok s2, { st with session := some s2, ctorCalls := st.ctorCalls + 1 + 1 })
         | .error e2 => (.error e2, { st with ctorCalls := st.ctorCalls + 1 + 1 }))) ∧
    (∀ c, st.s3 = some c → getS3 ctor clientOf st = (.ok c, st)) ∧
    (st.s3 = none → st.session = some s →
      getS3 ctor clientOf st =
        (.ok (clientOf s), { st with s3 := some (clientOf s) }) ∧
      getS3 ctor clientOf { st with s3 := some (clientOf s) } =
        (.ok (clientOf s), { st with s3 := some (clientOf s) })) := by
  refine ⟨?_, ?_, ?_, ?_, ?_⟩
  · intro h; simp [getAwsSession, h]
  · intro h hc
    constructor
    · simp [getAwsSession, h, hc]
    · simp [getAwsSession]
  · intro h hc
    refine ⟨by simp [getAwsSession, h, hc], by simp [h], ?_⟩
    cases hc2 : ctor (st.ctorCalls + 1) <;> simp [getAwsSession, h, hc2]
  · intro c h; simp [getS3, h]
  · intro h3 hs
    constructor
    · simp [getS3, getAwsSession, h3, hs]
    · simp [getS3]

/-- Claim C5 witness: with a constructor that fails on its first attempt
and succeeds on its second, the failure is not cached (the second call
retries and succeeds) and thereafter the handle is memoized; the client
is derived from the memoized session. -/
theorem c5_session_memoization_witness :
    getAwsSession (fun i => if i = 0 then .error () else .ok 7)
      ({ session := none, s3 := none, ctorCalls := 0 } : AwsState Nat Nat) =
      (.error (), { session := none, s3 := none, ctorCalls := 1 }) ∧
    getAwsSession (fun i => if i = 0 then .error () else .ok 7)
      ({ session := none, s3 := none, ctorCalls := 1 } : AwsState Nat Nat) =
      (.ok 7, { session := some 7, s3 := none, ctorCalls := 2 }) ∧
    getAwsSession (fun i => if i = 0 then .error () else .ok 7)
      ({ session := some 7, s3 := none, ctorCalls := 2 } : AwsState Nat Nat) =
      (.ok 7, { session := some 7, s3 := none, ctorCalls := 2 }) ∧
    getS3 (fun i => if i = 0 then .error () else .ok 7) (fun s => s + 100)
      ({ session := some 7, s3 := none, ctorCalls := 2 } : AwsState Nat Nat) =
      (.ok 107, { session := some 7, s3 := some 107, ctorCalls := 2 }) := by
  have h1 := (c5_session_memoization (fun i => if i = 0 then .error () else .ok 7)
    (fun s => s + 100) ({ session := none, s3 := none, ctorCalls := 0 } : AwsState Nat Nat)
    7 ()).2.2.1 rfl rfl
  have h2 := (c5_session_memoization (fun i => if i = 0 then .error () else .ok 7)
    (fun s => s + 100) ({ session := none, s3 := none, ctorCalls := 1 } : AwsState Nat Nat)
    7 ()).2.1 rfl rfl
  have h3 := (c5_session_memoization (fun i => if i = 0 then .error () else .ok 7)
    (fun s => s + 100) ({ session := some 7, s3 := none, ctorCalls := 2 } : AwsState Nat Nat)
    7 ()).1 rfl
  have h4 := (c5_session_memoization (fun i => if i = 0 then .error () else .ok 7)
    (fun s => s + 100) ({ session := some 7, s3 := none, ctorCalls := 2 } : AwsState Nat Nat)
    7 ()).2.2.2.2 rfl rfl
  exact ⟨by simpa using h1.1, by simpa using h2.1, h3, by simpa using h4.1⟩

/-- Claim C6: for every render that takes the colorized path, the `jq`
subprocess is invoked with the identity filter and `-c` exactly when
compact mode is on; a non-zero subprocess exit status makes the render
fail with a `CalledProcessError` carrying that status, and a zero exit
status makes it succeed. -/
theorem c6_jq_subprocess (st : CLIState) (jq : Int) (compact colorize : Bool)
    (dest : Dest) (v : Jsonable)
    (hcol : finalColorize st colorize dest = true) :
    (jq ≠ 0 →
      emitTo st jq compact colorize dest v =
        .error (.calledProcessError jq (jqCmd compact))) ∧
    (jq = 0 →
      emitTo st jq compact colorize dest v =
        .ok [.spawnJq dest (jqCmd compact) (String.mk (dumpVal none 0 (canonJ v)))]) ∧
    jqCmd true = ["jq", "-c", "."] ∧ jqCmd false = ["jq", "."] := by
  refine ⟨?_, ?_, rfl, rfl⟩
  · intro h; simp [emitTo, hcol, h]
  · intro h; simp [emitTo, hcol, h]

/-- Claim C6 witness: with a colorizable stdout, a `jq` exiting with
status 5 fails the render with that status; a `jq` exiting 0 succeeds. -/
theorem c6_jq_subprocess_witness :
    emitTo
      { raw := false, compact := false, colorize_stdout := true,
        colorize_stderr := false, output_file := none, encoding := "utf-8" }
      5 true true .stdout .null =
      .error (.calledProcessError 5 ["jq", "-c", "."]) ∧
    emitTo
      { raw := false, compact := false, colorize_stdout := true,
        colorize_stderr := false, output_file := none, encoding := "utf-8" }
      0 true true .stdout .null =
      .ok [.spawnJq .stdout ["jq", "-c", "."] (String.mk (dumpVal none 0 (canonJ .null)))] := by
  have h1 := c6_jq_subprocess
    { raw := false, compact := false, colorize_stdout := true,
      colorize_stderr := false, output_file := none, encoding := "utf-8" }
    5 true true .stdout .null rfl
  have h2 := c6_jq_subprocess
    { raw := false, compact := false, colorize_stdout := true,
      colorize_stderr := false, output_file := none, encoding := "utf-8" }
    0 true true .stdout .null rfl
  exact ⟨by simpa [jqCmd] using h1.1 (by decide), by simpa [jqCmd] using h2.2.1 rfl⟩

/-- Claim C7: a handler-raised `CmdExitError` with exit code 0 makes the
run return 0 with no diagnostic line, whether or not traceback mode is
on; a `CmdExitError` with a non-zero code always yields a failed run —
the non-zero code without traceback, the propagating exception with
it. -/
theorem c7_exit_signal_zero (tb cs : Bool) (m msg : String) (c : Int) :
    finishRun tb cs (.error (.cmdExitError 0 m)) = (.returned 0, []) ∧
    (c ≠ 0 →
      finishRun false cs (.error (.cmdExitError c msg)) =
        (.returned c, [errLine cs msg]) ∧
      finishRun true cs (.error (.cmdExitError c msg)) =
        (.raised (.cmdExitError c msg), [])) := by
  constructor
  · simp [finishRun, PyExc.isCmdExitError, PyExc.cmdExitCode]
  · intro hc
    constructor <;>
      simp [finishRun, PyExc.isCmdExitError, PyExc.cmdExitCode, excMsg, hc]

/-- Claim C7 witness: concrete evaluations at exit codes 0 and 2. -/
theorem c7_exit_signal_zero_witness :
    finishRun true false (.error (.cmdExitError 0 "zero")) = (.returned 0, []) ∧
    finishRun false false (.error (.cmdExitError 2 "two")) =
      (.returned 2, [errLine false "two"]) ∧
    finishRun true false (.error (.cmdExitError 2 "two")) =
      (.raised (.cmdExitError 2 "two"), []) := by
  have h := c7_exit_signal_zero true false "zero" "two" 2
  have h2 := c7_exit_signal_zero false false "zero" "two" 2
  exact ⟨h.1, (h2.2 (by decide)).1, (h.2 (by decide)).2⟩

/-- Claim C8: after the logging configuration step, every logger in the
fixed chatty-module list is at `max(requested, INFO)`, the
`botocore.credentials` logger is at `max(requested, WARNING)`, and the
root logger is at the requested level — for every requested level. -/
theorem c8_logger_levels (req : Nat) (st0 : LogState) :
    (∀ m ∈ chattyModules, (configureLogging req st0).level m = max req 20) ∧
    (configureLogging req st0).level "botocore.credentials" = max req 30 ∧
    (configureLogging req st0).root = req := by
  refine ⟨?_, by simp [configureLogging, setLevel], rfl⟩
  intro m hm
  fin_cases hm <;> rfl

/-- Claim C8 witness: at requested level DEBUG (10), the chatty module
`botocore.hooks` sits at INFO (20) and `botocore.credentials` at
WARNING (30), while the root is at 10. -/
theorem c8_logger_levels_witness :
    (configureLogging 10 pyLogInit).level "botocore.hooks" = 20 ∧
    (configureLogging 10 pyLogInit).level "botocore.credentials" = 30 ∧
    (configureLogging 10 pyLogInit).root = 10 := by
  have h := c8_logger_levels 10 pyLogInit
  exact ⟨by simpa using h.1 "botocore.hooks" (by decide), by simpa using h.2.1,
    by simpa using h.2.2⟩

/-- Claim C10: every `CmdExitError` (including the `ArgparseExitError`
subtype) that escapes `CommandLineInterface.run` is caught by the
module-level `run()` wrapper and converted to its exit code; any
non-`CmdExitError` exception propagates unchanged, and normal returns
pass through.  The wrapper is exactly what `runModule` applies to the
inner outcome. -/
theorem c10_module_run_wrapper (env : Env) (argv : List String) (ex : PyExc) :
    (runModule env argv).outcome = moduleWrap (runCLI env argv).outcome ∧
    (ex.isCmdExitError = true → moduleWrap (.raised ex) = .returned ex.cmdExitCode) ∧
    (ex.isCmdExitError = false → moduleWrap (.raised ex) = .raised ex) ∧
    (∀ rc : Int, moduleWrap (.returned rc) = .returned rc) := by
  refine ⟨rfl, ?_, ?_, fun rc => rfl⟩
  · intro h; simp [moduleWrap, h]
  · intro h; simp [moduleWrap, h]

/-- Claim C10 witness: a raised `ArgparseExitError` with code 3 becomes
return value 3; a raised generic error propagates. -/
theorem c10_module_run_wrapper_witness :
    moduleWrap (.raised (.argparseExitError 3 "usage")) = .returned 3 ∧
    moduleWrap (.raised (.otherError "boom")) = .raised (.otherError "boom") := by
  have h := c10_module_run_wrapper envDefault [] (.argparseExitError 3 "usage")
  have h2 := c10_module_run_wrapper envDefault [] (.otherError "boom")
  exact ⟨by simpa using h.2.1 rfl, h2.2.2.1 rfl⟩

/-! ### Helper lemmas for the JSON round trip -/

theorem jfuel_pos (w : Jsonable) : 1 ≤ jfuel w := by
  cases w <;> simp [jfuel]

theorem ne_of_toNat_lt {c d : Char} (h : c.toNat ≠ d.toNat) : c ≠ d :=
  fun he => h (he ▸ rfl)

theorem char_toNat_valid (c : Char) :
    c.toNat < 55296 ∨ (57343 < c.toNat ∧ c.toNat < 1114112) := by
  rcases c with ⟨v, h⟩
  simpa [Char.toNat, UInt32.isValidChar, Nat.isValidChar] using h

theorem char_ofNat_toNat (c : Char) : Char.ofNat c.toNat = c := by
  rcases c with ⟨v, h⟩
  simp [Char.ofNat, Char.toNat]
  split
  · rfl
  · exact absurd (by simpa [Char.toNat] using h) (by assumption)

theorem isDig_toNat {c : Char} (h : isDig c = true) :
    48 ≤ c.toNat ∧ c.toNat ≤ 57 := by
  simpa [isDig] using h

theorem isWsC_not_dig {c : Char} (h : isWsC c = true) : isDig c = false := by
  simp [isWsC] at h
  simp [isDig]
  omega

theorem digitCh_toNat {k : Nat} (h : k < 10) : (digitCh k).toNat = 48 + k := by
  interval_cases k <;> decide

theorem isDig_digitCh {k : Nat} (h : k < 10) : isDig (digitCh k) = true := by
  simp [isDig, digitCh_toNat h]
  omega

theorem digitVal_digitCh {k : Nat} (h : k < 10) : digitVal (digitCh k) = k := by
  simp [digitVal, digitCh_toNat h]

theorem natChars_ne_nil (n : Nat) : natChars n ≠ [] := by
  rw [natChars]
  split <;> simp

theorem natChars_all_dig (n : Nat) : ∀ c ∈ natChars n, isDig c = true := by
  induction n using Nat.strong_induction_on with
  | _ n ih =>
    rw [natChars]
    split
    · intro c hc
      simp at hc
      subst hc
      exact isDig_digitCh (by omega)
    · intro c hc
      rw [List.mem_append] at hc
      rcases hc with hc | hc
      · exact ih (n / 10) (Nat.div_lt_self (by omega) (by omega)) c hc
      · simp at hc
        subst hc
        exact isDig_digitCh (by omega)

theorem natChars_getLast (n : Nat) :
    ∃ k, k < 10 ∧ (natChars n).getLast? = some (digitCh k) := by
  rw [natChars]
  split
  · exact ⟨n, by omega, rfl⟩
  · exact ⟨n % 10, by omega, by rw [List.getLast?_concat]⟩

theorem foldl_digits_natChars (n : Nat) : ∀ acc : Nat,
    List.foldl (fun a c => a * 10 + digitVal c) acc (natChars n) =
      acc * 10 ^ (natChars n).length + n := by
  induction n using Nat.strong_induction_on with
  | _ n ih =>
    intro acc
    rw [natChars]
    split
    · next h =>
      simp [List.foldl, digitVal_digitCh h]
    · next h =>
      rw [List.foldl_append, ih (n / 10) (Nat.div_lt_self (by omega) (by omega)) acc]
      simp only [List.foldl, List.length_append, List.length_cons, List.length_nil]
      rw [digitVal_digitCh (by omega : n % 10 < 10), Nat.pow_succ]
      have hx : acc * (10 ^ (natChars (n / 10)).length * 10) =
          acc * 10 ^ (natChars (n / 10)).length * 10 := by ring
      rw [hx]
      omega

theorem parseDigits_ds (ds : List Char) (h : ∀ c ∈ ds, isDig c = true) :
    ∀ (acc : Nat) (rest : List Char),
      parseDigits acc (ds ++ rest) =
        parseDigits (List.foldl (fun a c => a * 10 + digitVal c) acc ds) rest := by
  induction ds with
  | nil => intro acc rest; rfl
  | cons c ds2 ih =>
    intro acc rest
    have hc : isDig c = true := h c (List.mem_cons_self c ds2)
    simp only [List.cons_append, parseDigits, hc, if_true, List.foldl]
    exact ih (fun x hx => h x (List.mem_cons_of_mem c hx)) _ rest

theorem parseDigits_stop (rest : List Char) (h : noDigitHead rest = true)
    (acc : Nat) : parseDigits acc rest = (acc, rest) := by
  cases rest with
  | nil => rfl
  | cons c t =>
    simp [noDigitHead] at h
    simp [parseDigits, h]

theorem parseNat_natChars (n : Nat) (rest : List Char)
    (h : noDigitHead rest = true) : parseNat (natChars n ++ rest) = some (n, rest) := by
  obtain ⟨c, t, he⟩ := List.exists_cons_of_ne_nil (natChars_ne_nil n)
  have hc : isDig c = true := by
    have := natChars_all_dig n c
    rw [he] at this
    exact this (List.mem_cons_self c t)
  rw [he, List.cons_append, parseNat]
  simp only [hc, if_true]
  rw [← List.cons_append, ← he, parseDigits_ds _ (natChars_all_dig n) 0 rest,
    parseDigits_stop rest h, foldl_digits_natChars]
  simp

theorem hexVal_hexDig {k : Nat} (h : k < 16) : hexVal (hexDig k) = some k := by
  interval_cases k <;> decide

theorem hex4Val_spec {n : Nat} (h : n < 65536) :
    hex4Val (hexDig (n / 4096)) (hexDig (n / 256 % 16)) (hexDig (n / 16 % 16))
      (hexDig (n % 16)) = some n := by
  rw [hex4Val, hexVal_hexDig (by omega), hexVal_hexDig (by omega),
    hexVal_hexDig (by omega), hexVal_hexDig (by omega)]
  simp only [Option.bind, Option.map, Option.some.injEq]
  omega

theorem skipWs_not {c : Char} (h : isWsC c = false) (l : List Char) :
    skipWs (c :: l) = c :: l := by
  simp [skipWs, h]

theorem skipWs_ws_append {ws : List Char} (h : ∀ c ∈ ws, isWsC c = true)
    (l : List Char) : skipWs (ws ++ l) = skipWs l := by
  induction ws with
  | nil => rfl
  | cons c t ih =>
    have hc := h c (List.mem_cons_self c t)
    simp only [List.cons_append, skipWs, hc, if_true]
    exact ih (fun x hx => h x (List.mem_cons_of_mem c hx))

theorem nlPad_ws (s : Option Nat) (dd : Nat) : ∀ c ∈ nlPad s dd, isWsC c = true := by
  cases s with
  | none => simp [nlPad]
  | some n =>
    intro c hc
    simp only [nlPad, List.mem_cons] at hc
    rcases hc with hc | hc
    · subst hc; decide
    · rw [List.eq_of_mem_replicate hc]; decide

theorem isDig_not_ws {c : Char} (h : isDig c = true) : isWsC c = false := by
  simp [isDig] at h
  simp [isWsC]
  omega

theorem goodStarter_not_ws {c : Char} (h : goodStarter c = true) : isWsC c = false := by
  simp [goodStarter, isDig] at h
  simp [isWsC]
  omega

theorem goodStarter_ne {c : Char} (h : goodStarter c = true) :
    c ≠ ']' ∧ c ≠ '\x7d' := by
  simp [goodStarter, isDig] at h
  have b1 : (']').toNat = 93 := by decide
  have b2 : ('\x7d').toNat = 125 := by decide
  exact ⟨ne_of_toNat_lt (by omega), ne_of_toNat_lt (by omega)⟩

theorem parseStrAux_quote (cs : List Char) :
    parseStrAux ('"' :: cs) = some ([], cs) := by
  simp [parseStrAux]

theorem parseStrAux_bs (cs : List Char) :
    parseStrAux ('\\' :: cs) = parseEsc cs := by
  simp [parseStrAux]

theorem parseStrAux_lit {c : Char} (h1 : c ≠ '"') (h2 : c ≠ '\\')
    (h3 : ¬(c.toNat < 32)) (cs : List Char) :
    parseStrAux (c :: cs) = (parseStrAux cs).map (fun p => (c :: p.1, p.2)) := by
  simp only [parseStrAux, if_neg h1, if_neg h2, if_neg h3]

theorem parseEsc_u (cs : List Char) : parseEsc ('u' :: cs) = parseHexEsc cs := by
  simp [parseEsc]

theorem parseEsc_short {e u : Char} (he : e ≠ 'u') (hu : unescMap e = some u)
    (cs : List Char) :
    parseEsc (e :: cs) = (parseStrAux cs).map (fun p => (u :: p.1, p.2)) := by
  simp only [parseEsc, if_neg he, hu, Option.bind]

theorem parseHexEsc_hex4 {n : Nat} (hn : n < 65536) (cs₂ : List Char) :
    parseHexEsc (hex4 n ++ cs₂) =
      (if 55296 ≤ n ∧ n < 56320 then parseLowSurrogate n cs₂
       else if 56320 ≤ n ∧ n < 57344 then none
       else (parseStrAux cs₂).map (fun p => (Char.ofNat n :: p.1, p.2))) := by
  rw [hex4]
  simp only [List.cons_append, List.nil_append]
  rw [parseHexEsc, hex4Val_spec hn]
  simp only [Option.bind]

theorem parseLowSurrogate_hex4 (n : Nat) {m : Nat} (hm : m < 65536)
    (cs₃ : List Char) :
    parseLowSurrogate n ('\\' :: 'u' :: hex4 m ++ cs₃) =
      (if 56320 ≤ m ∧ m < 57344 then
        (parseStrAux cs₃).map
          (fun p => (Char.ofNat (65536 + (n - 55296) * 1024 + (m - 56320)) :: p.1, p.2))
       else none) := by
  rw [hex4]
  simp only [List.cons_append, List.nil_append]
  rw [parseLowSurrogate, hex4Val_spec hm]
  simp

theorem parseStrAux_escChar (c : Char) (rest : List Char) :
    parseStrAux (escChar c ++ rest) =
      (parseStrAux rest).map (fun p => (c :: p.1, p.2)) := by
  have hvalid := char_toNat_valid c
  by_cases h1 : c = '"'
  · subst h1
    rw [show escChar '"' = ['\\', '"'] by rfl]
    simp only [List.cons_append, List.nil_append]
    rw [parseStrAux_bs, parseEsc_short (by decide) (by decide : unescMap '"' = some '"')]
  by_cases h2 : c = '\\'
  · subst h2
    rw [show escChar '\\' = ['\\', '\\'] by rfl]
    simp only [List.cons_append, List.nil_append]
    rw [parseStrAux_bs, parseEsc_short (by decide) (by decide : unescMap '\\' = some '\\')]
  by_cases h3 : c = Char.ofNat 8
  · subst h3
    rw [show escChar (Char.ofNat 8) = ['\\', 'b'] by rfl]
    simp only [List.cons_append, List.nil_append]
    rw [parseStrAux_bs,
      parseEsc_short (by decide) (by decide : unescMap 'b' = some (Char.ofNat 8))]
  by_cases h4 : c = Char.ofNat 9
  · subst h4
    rw [show escChar (Char.ofNat 9) = ['\\', 't'] by rfl]
    simp only [List.cons_append, List.nil_append]
    rw [parseStrAux_bs,
      parseEsc_short (by decide) (by decide : unescMap 't' = some (Char.ofNat 9))]
  by_cases h5 : c = Char.ofNat 10
  · subst h5
    rw [show escChar (Char.ofNat 10) = ['\\', 'n'] by rfl]
    simp only [List.cons_append, List.nil_append]
    rw [parseStrAux_bs,
      parseEsc_short (by decide) (by decide : unescMap 'n' = some (Char.ofNat 10))]
  by_cases h6 : c = Char.ofNat 12
  · subst h6
    rw [show escChar (Char.ofNat 12) = ['\\', 'f'] by rfl]
    simp only [List.cons_append, List.nil_append]
    rw [parseStrAux_bs,
      parseEsc_short (by decide) (by decide : unescMap 'f' = some (Char.ofNat 12))]
  by_cases h7 : c = Char.ofNat 13
  · subst h7
    rw [show escChar (Char.ofNat 13) = ['\\', 'r'] by rfl]
    simp only [List.cons_append, List.nil_append]
    rw [parseStrAux_bs,
      parseEsc_short (by decide) (by decide : unescMap 'r' = some (Char.ofNat 13))]
  by_cases h8 : 0x20 ≤ c.toNat ∧ c.toNat ≤ 0x7e
  · have e1 : escChar c = [c] := by
      rw [escChar, if_neg h1, if_neg h2, if_neg h3, if_neg h4, if_neg h5,
        if_neg h6, if_neg h7, if_pos h8]
    rw [e1, List.cons_append, List.nil_append,
      parseStrAux_lit h1 h2 (by omega)]
  by_cases h9 : c.toNat < 65536
  · have e1 : escChar c = '\\' :: 'u' :: hex4 c.toNat := by
      rw [escChar, if_neg h1, if_neg h2, if_neg h3, if_neg h4, if_neg h5,
        if_neg h6, if_neg h7, if_neg h8, if_pos h9]
    have hs1 : ¬(55296 ≤ c.toNat ∧ c.toNat < 56320) := by omega
    have hs2 : ¬(56320 ≤ c.toNat ∧ c.toNat < 57344) := by omega
    rw [e1, List.cons_append, List.cons_append, parseStrAux_bs, parseEsc_u,
      parseHexEsc_hex4 h9, if_neg hs1, if_neg hs2]
    simp only [char_ofNat_toNat]
  · have h10 : c.toNat < 1114112 := by omega
    have e1 : escChar c =
        ('\\' :: 'u' :: hex4 (55296 + (c.toNat - 65536) / 1024)) ++
          ('\\' :: 'u' :: hex4 (56320 + (c.toNat - 65536) % 1024)) := by
      rw [escChar, if_neg h1, if_neg h2, if_neg h3, if_neg h4, if_neg h5,
        if_neg h6, if_neg h7, if_neg h8, if_neg h9]
    have hdiv : (c.toNat - 65536) / 1024 < 1024 := by omega
    have hmod : (c.toNat - 65536) % 1024 < 1024 := by omega
    have hhi : (55296 + (c.toNat - 65536) / 1024) < 65536 := by omega
    have hlo : (56320 + (c.toNat - 65536) % 1024) < 65536 := by omega
    have hr1 : 55296 ≤ 55296 + (c.toNat - 65536) / 1024 ∧
        55296 + (c.toNat - 65536) / 1024 < 56320 := by omega
    have hr2 : 56320 ≤ 56320 + (c.toNat - 65536) % 1024 ∧
        56320 + (c.toNat - 65536) % 1024 < 57344 := by omega
    have harg : 65536 + (55296 + (c.toNat - 65536) / 1024 - 55296) * 1024 +
        (56320 + (c.toNat - 65536) % 1024 - 56320) = c.toNat := by
      have := Nat.div_add_mod (c.toNat - 65536) 1024
      omega
    rw [e1, List.append_assoc, List.cons_append, List.cons_append,
      parseStrAux_bs, parseEsc_u, parseHexEsc_hex4 hhi, if_pos hr1,
      parseLowSurrogate_hex4 _ hlo, if_pos hr2]
    simp only [harg, char_ofNat_toNat]

theorem parseStrAux_strBody (l : List Char) (rest : List Char) :
    parseStrAux (strBody l ++ '"' :: rest) = some (l, rest) := by
  induction l with
  | nil => simp [strBody, parseStrAux]
  | cons c t ih =>
    rw [strBody, List.append_assoc, parseStrAux_escChar, ih]
    rfl

theorem dump_cons (s : Option Nat) (d : Nat) (w : Jsonable) :
    ∃ c t, dumpVal s d w = c :: t ∧ goodStarter c = true := by
  cases w with
  | null => exact ⟨'n', _, rfl, by decide⟩
  | bool b =>
    cases b
    · exact ⟨'f', _, rfl, by decide⟩
    · exact ⟨'t', _, rfl, by decide⟩
  | num n =>
    by_cases hn : n < 0
    · exact ⟨'-', natChars n.natAbs, by simp [dumpVal, intChars, hn], by decide⟩
    · obtain ⟨c, t, he⟩ := List.exists_cons_of_ne_nil (natChars_ne_nil n.toNat)
      have hc : isDig c = true := by
        have := natChars_all_dig n.toNat c
        rw [he] at this
        exact this (List.mem_cons_self c t)
      refine ⟨c, t, by simp [dumpVal, intChars, hn, he], ?_⟩
      simp [goodStarter, hc]
  | str s2 =>
    exact ⟨'"', strBody s2.data ++ ['"'], by simp [dumpVal, encStr], by decide⟩
  | arr xs =>
    cases xs
    · exact ⟨'[', _, rfl, by decide⟩
    · exact ⟨'[', _, rfl, by decide⟩
  | obj kvs =>
    cases kvs
    · exact ⟨'\x7b', _, rfl, by decide⟩
    · exact ⟨'\x7b', _, rfl, by decide⟩

theorem skipWs_dump_append (s : Option Nat) (d : Nat) (w : Jsonable)
    (X : List Char) : skipWs (dumpVal s d w ++ X) = dumpVal s d w ++ X := by
  obtain ⟨c, t, he, hg⟩ := dump_cons s d w
  rw [he, List.cons_append, skipWs_not (goodStarter_not_ws hg)]

theorem dump_append_head_ne (s : Option Nat) (d : Nat) (w : Jsonable)
    (X : List Char) :
    (dumpVal s d w ++ X).head? ≠ some ']' ∧
      (dumpVal s d w ++ X).head? ≠ some '\x7d' := by
  obtain ⟨c, t, he, hg⟩ := dump_cons s d w
  obtain ⟨hne1, hne2⟩ := goodStarter_ne hg
  rw [he]
  simp [hne1, hne2]

theorem skipWs_encStr_append (k : String) (X : List Char) :
    skipWs (encStr k ++ X) = encStr k ++ X := by
  rw [encStr]
  simp only [List.cons_append, List.append_assoc]
  rw [skipWs_not (by decide)]

theorem encStr_append_head_ne (k : String) (X : List Char) :
    (encStr k ++ X).head? ≠ some '\x7d' := by
  rw [encStr, List.cons_append]
  simp

theorem noDigitHead_items (s : Option Nat) (d : Nat) (xs : List Jsonable)
    (ws : List Char) (hws : ∀ c ∈ ws, isWsC c = true) (close : Char)
    (hclose : isDig close = false) (rest : List Char) :
    noDigitHead (dumpItems s d xs ++ ws ++ close :: rest) = true := by
  cases xs with
  | nil =>
    rw [dumpItems, List.nil_append]
    cases ws with
    | nil => simp [noDigitHead, hclose]
    | cons w t =>
      have := hws w (List.mem_cons_self w t)
      simp [noDigitHead, isWsC_not_dig this]
  | cons x xs2 =>
    simp only [dumpItems, List.cons_append, noDigitHead]
    decide

theorem noDigitHead_members (s : Option Nat) (d : Nat)
    (kvs : List (String × Jsonable)) (ws : List Char)
    (hws : ∀ c ∈ ws, isWsC c = true) (close : Char)
    (hclose : isDig close = false) (rest : List Char) :
    noDigitHead (dumpMembers s d kvs ++ ws ++ close :: rest) = true := by
  cases kvs with
  | nil =>
    rw [dumpMembers, List.nil_append]
    cases ws with
    | nil => simp [noDigitHead, hclose]
    | cons w t =>
      have := hws w (List.mem_cons_self w t)
      simp [noDigitHead, isWsC_not_dig this]
  | cons kv kvs2 =>
    simp only [dumpMembers, List.cons_append, noDigitHead]
    decide

theorem ne_char_of_dig {c : Char} (h : isDig c = true) (d : Char)
    (hd : d.toNat < 48 ∨ 57 < d.toNat) : c ≠ d := by
  obtain ⟨h1, h2⟩ := isDig_toNat h
  exact ne_of_toNat_lt (by omega)

theorem parseValue_digit (f : Nat) {c : Char} (r : List Char)
    (h : isDig c = true) :
    parseValue (f + 1) (c :: r) =
      (parseNat (c :: r)).map (fun p => (Jsonable.num (p.1 : Int), p.2)) := by
  have c1 : c ≠ 'n' := ne_char_of_dig h 'n' (by decide)
  have c2 : c ≠ 't' := ne_char_of_dig h 't' (by decide)
  have c3 : c ≠ 'f' := ne_char_of_dig h 'f' (by decide)
  have c4 : c ≠ '"' := ne_char_of_dig h '"' (by decide)
  have c5 : c ≠ '[' := ne_char_of_dig h '[' (by decide)
  have c6 : c ≠ '\x7b' := ne_char_of_dig h '\x7b' (by decide)
  have c7 : c ≠ '-' := ne_char_of_dig h '-' (by decide)
  simp only [parseValue, if_neg c1, if_neg c2, if_neg c3, if_neg c4, if_neg c5,
    if_neg c6, if_neg c7, h, if_true]

theorem string_mk_data (s : String) : String.mk s.data = s := rfl

theorem skipWs_ws_cons {c : Char} (h : isWsC c = true) (l : List Char) :
    skipWs (c :: l) = skipWs l := by
  simp [skipWs, h]

theorem parseValue_null (f : Nat) (r : List Char) :
    parseValue (f + 1) ('n' :: r) =
      (expectChars ['u', 'l', 'l'] r).map (fun r2 => (Jsonable.null, r2)) := by
  simp [parseValue]

theorem parseValue_true (f : Nat) (r : List Char) :
    parseValue (f + 1) ('t' :: r) =
      (expectChars ['r', 'u', 'e'] r).map (fun r2 => (Jsonable.bool true, r2)) := by
  simp [parseValue]

theorem parseValue_false (f : Nat) (r : List Char) :
    parseValue (f + 1) ('f' :: r) =
      (expectChars ['a', 'l', 's', 'e'] r).map (fun r2 => (Jsonable.bool false, r2)) := by
  simp [parseValue]

theorem parseValue_quote (f : Nat) (r : List Char) :
    parseValue (f + 1) ('"' :: r) =
      (parseStrAux r).map (fun p => (Jsonable.str (String.mk p.1), p.2)) := by
  simp [parseValue]

theorem parseValue_neg (f : Nat) (r : List Char) :
    parseValue (f + 1) ('-' :: r) =
      (parseNat r).map (fun p => (Jsonable.num (-(p.1 : Int)), p.2)) := by
  simp [parseValue]

theorem parseValue_lbrack (f : Nat) (r : List Char) :
    parseValue (f + 1) ('[' :: r) =
      (if (skipWs r).head? = some ']' then some (Jsonable.arr [], (skipWs r).tail)
       else
         (parseValue f (skipWs r)).bind fun p =>
           (parseArrTail f (skipWs p.2)).map fun q =>
             (Jsonable.arr (p.1 :: q.1), q.2)) := by
  simp [parseValue]

theorem parseValue_lbrace (f : Nat) (r : List Char) :
    parseValue (f + 1) ('\x7b' :: r) =
      (if (skipWs r).head? = some '\x7d' then some (Jsonable.obj [], (skipWs r).tail)
       else
         (parseMember f (skipWs r)).bind fun p =>
           (parseObjTail f (skipWs p.2)).map fun q =>
             (Jsonable.obj (p.1 :: q.1), q.2)) := by
  simp [parseValue]

theorem parseArrTail_rbrack (f : Nat) {cs : List Char}
    (h : cs.head? = some ']') : parseArrTail (f + 1) cs = some ([], cs.tail) := by
  simp [parseArrTail, h]

theorem parseArrTail_comma (f : Nat) {cs : List Char}
    (h : cs.head? = some ',') :
    parseArrTail (f + 1) cs =
      (parseValue f (skipWs cs.tail)).bind fun p =>
        (parseArrTail f (skipWs p.2)).map fun q => (p.1 :: q.1, q.2) := by
  simp [parseArrTail, h]

theorem parseObjTail_rbrace (f : Nat) {cs : List Char}
    (h : cs.head? = some '\x7d') : parseObjTail (f + 1) cs = some ([], cs.tail) := by
  simp [parseObjTail, h]

theorem parseObjTail_comma (f : Nat) {cs : List Char}
    (h : cs.head? = some ',') :
    parseObjTail (f + 1) cs =
      (parseMember f (skipWs cs.tail)).bind fun p =>
        (parseObjTail f (skipWs p.2)).map fun q => (p.1 :: q.1, q.2) := by
  simp [parseObjTail, h]

theorem parseMember_quote (f : Nat) (r : List Char) :
    parseMember (f + 1) ('"' :: r) =
      (parseStrAux r).bind fun kp =>
        (if (skipWs kp.2).head? = some ':' then
          (parseValue f (skipWs (skipWs kp.2).tail)).map fun vp =>
            ((String.mk kp.1, vp.1), vp.2)
         else none) := by
  simp [parseMember]

theorem parse_dump_main : ∀ F : Nat,
    (∀ (w : Jsonable) (s : Option Nat) (d : Nat) (rest : List Char),
      jfuel w ≤ F → noDigitHead rest = true →
      parseValue F (dumpVal s d w ++ rest) = some (w, rest)) ∧
    (∀ (xs : List Jsonable) (s : Option Nat) (d : Nat) (ws rest : List Char),
      (∀ c ∈ ws, isWsC c = true) → jfuelList xs < F →
      parseArrTail F (skipWs (dumpItems s d xs ++ (ws ++ ']' :: rest))) =
        some (xs, rest)) ∧
    (∀ (k : String) (v : Jsonable) (s : Option Nat) (d : Nat) (rest : List Char),
      jfuel v < F → noDigitHead rest = true →
      parseMember F (encStr k ++ (kvSepChars s ++ (dumpVal s d v ++ rest))) =
        some ((k, v), rest)) ∧
    (∀ (kvs : List (String × Jsonable)) (s : Option Nat) (d : Nat)
      (ws rest : List Char),
      (∀ c ∈ ws, isWsC c = true) → jfuelKVs kvs < F →
      parseObjTail F (skipWs (dumpMembers s d kvs ++ (ws ++ '\x7d' :: rest))) =
        some (kvs, rest)) := by
  intro F
  induction F using Nat.strong_induction_on with
  | _ F IH =>
    rcases F with _ | F
    · refine ⟨?_, ?_, ?_, ?_⟩
      · intro w s d rest hw _
        have := jfuel_pos w
        omega
      · intro xs s d ws rest _ h
        omega
      · intro k v s d rest h _
        omega
      · intro kvs s d ws rest _ h
        omega
    · have IHP := (IH F (Nat.lt_succ_self F)).1
      have IHQ := (IH F (Nat.lt_succ_self F)).2.1
      have IHM := (IH F (Nat.lt_succ_self F)).2.2.1
      have IHR := (IH F (Nat.lt_succ_self F)).2.2.2
      refine ⟨?_, ?_, ?_, ?_⟩
      · -- parseValue on a dumped value
        intro w s d rest hw hrest
        cases w with
        | null =>
          simp only [dumpVal, nullChars, List.cons_append, List.nil_append]
          rw [parseValue_null]
          simp [expectChars]
        | bool b =>
          cases b
          · simp only [dumpVal, falseChars, List.cons_append, List.nil_append]
            rw [parseValue_false]
            simp [expectChars]
          · simp only [dumpVal, trueChars, List.cons_append, List.nil_append]
            rw [parseValue_true]
            simp [expectChars]
        | num n =>
          simp only [dumpVal, intChars]
          by_cases hn : n < 0
          · rw [if_pos hn, List.cons_append, parseValue_neg,
              parseNat_natChars _ _ hrest]
            simp only [Option.map]
            have he : -((n.natAbs : Nat) : Int) = n := by omega
            rw [he]
          · rw [if_neg hn]
            obtain ⟨c, t, he⟩ := List.exists_cons_of_ne_nil (natChars_ne_nil n.toNat)
            have hc : isDig c = true := by
              have := natChars_all_dig n.toNat c
              rw [he] at this
              exact this (List.mem_cons_self c t)
            rw [he, List.cons_append, parseValue_digit F _ hc, ← List.cons_append,
              ← he, parseNat_natChars _ _ hrest]
            simp only [Option.map]
            have he2 : ((n.toNat : Nat) : Int) = n := by omega
            rw [he2]
        | str s2 =>
          simp only [dumpVal, encStr, List.cons_append, List.append_assoc,
            List.nil_append]
          rw [parseValue_quote, parseStrAux_strBody]
          simp [Option.map]
        | arr xs =>
          cases xs with
          | nil =>
            simp only [dumpVal, List.cons_append, List.nil_append]
            rw [parseValue_lbrack, skipWs_not (by decide)]
            simp
          | cons x xs =>
            simp only [dumpVal, List.cons_append, List.append_assoc,
              List.nil_append]
            rw [parseValue_lbrack, skipWs_ws_append (nlPad_ws s (d + 1)),
              skipWs_dump_append]
            have hne := (dump_append_head_ne s (d + 1) x
              (dumpItems s (d + 1) xs ++ (nlPad s d ++ ']' :: rest))).1
            rw [if_neg hne]
            have hw2 : 1 + (1 + jfuel x + jfuelList xs) ≤ F + 1 := by
              simpa [jfuel, jfuelList] using hw
            have hx : jfuel x ≤ F := by omega
            have hnd : noDigitHead
                (dumpItems s (d + 1) xs ++ (nlPad s d ++ ']' :: rest)) = true := by
              simpa [List.append_assoc] using
                noDigitHead_items s (d + 1) xs (nlPad s d) (nlPad_ws s d) ']'
                  (by decide) rest
            rw [IHP x s (d + 1) _ hx hnd]
            simp only [Option.bind]
            have hxs : jfuelList xs < F := by
              have := jfuel_pos x
              omega
            rw [IHQ xs s (d + 1) (nlPad s d) rest (nlPad_ws s d) hxs]
            simp [Option.map]
        | obj kvs =>
          cases kvs with
          | nil =>
            simp only [dumpVal, List.cons_append, List.nil_append]
            rw [parseValue_lbrace, skipWs_not (by decide)]
            simp
          | cons kv kvs =>
            simp only [dumpVal, List.cons_append, List.append_assoc,
              List.nil_append]
            rw [parseValue_lbrace, skipWs_ws_append (nlPad_ws s (d + 1)),
              skipWs_encStr_append]
            have hne := encStr_append_head_ne kv.1
              (kvSepChars s ++ (dumpVal s (d + 1) kv.2 ++
                (dumpMembers s (d + 1) kvs ++ (nlPad s d ++ '\x7d' :: rest))))
            rw [if_neg hne]
            have hw2 : 1 + (1 + jfuel kv.2 + jfuelKVs kvs) ≤ F + 1 := by
              simpa [jfuel, jfuelKVs] using hw
            have hv : jfuel kv.2 < F := by
              have : 0 ≤ jfuelKVs kvs := Nat.zero_le _
              omega
            have hnd : noDigitHead
                (dumpMembers s (d + 1) kvs ++ (nlPad s d ++ '\x7d' :: rest)) = true := by
              simpa [List.append_assoc] using
                noDigitHead_members s (d + 1) kvs (nlPad s d) (nlPad_ws s d) '\x7d'
                  (by decide) rest
            rw [IHM kv.1 kv.2 s (d + 1) _ hv hnd]
            simp only [Option.bind]
            have hkvs : jfuelKVs kvs < F := by
              have := jfuel_pos kv.2
              omega
            rw [IHR kvs s (d + 1) (nlPad s d) rest (nlPad_ws s d) hkvs]
            simp [Option.map]
      · -- parseArrTail on dumped items
        intro xs s d ws rest hws hxs
        cases xs with
        | nil =>
          rw [dumpItems, List.nil_append, skipWs_ws_append hws,
            skipWs_not (by decide), parseArrTail_rbrack F (by simp)]
          simp
        | cons x xs =>
          rw [dumpItems]
          simp only [List.cons_append, List.append_assoc]
          rw [skipWs_not (by decide), parseArrTail_comma F (by simp)]
          simp only [List.tail_cons]
          rw [skipWs_ws_append (nlPad_ws s d), skipWs_dump_append]
          have hxs2 : 1 + jfuel x + jfuelList xs < F + 1 := by
            simpa [jfuelList] using hxs
          have hx : jfuel x ≤ F := by omega
          have hnd : noDigitHead
              (dumpItems s d xs ++ (ws ++ ']' :: rest)) = true := by
            simpa [List.append_assoc] using
              noDigitHead_items s d xs ws hws ']' (by decide) rest
          rw [IHP x s d _ hx hnd]
          simp only [Option.bind]
          have hxs3 : jfuelList xs < F := by
            have := jfuel_pos x
            omega
          rw [IHQ xs s d ws rest hws hxs3]
          simp [Option.map]
      · -- parseMember on a dumped member
        intro k v s d rest hv hrest
        rw [encStr]
        simp only [List.cons_append, List.append_assoc, List.nil_append]
        rw [parseMember_quote, parseStrAux_strBody]
        simp only [Option.bind]
        have hvF : jfuel v ≤ F := by omega
        cases s with
        | none =>
          rw [show kvSepChars none = [':'] from rfl]
          simp only [List.cons_append, List.nil_append]
          rw [skipWs_not (by decide)]
          simp only [List.head?_cons, List.tail_cons, if_pos rfl]
          rw [skipWs_dump_append, IHP v none d rest hvF hrest]
          simp [Option.map]
        | some ind =>
          rw [show kvSepChars (some ind) = [':', ' '] from rfl]
          simp only [List.cons_append, List.nil_append]
          rw [skipWs_not (by decide)]
          simp only [List.head?_cons, List.tail_cons, if_pos rfl]
          rw [skipWs_ws_cons (by decide), skipWs_dump_append,
            IHP v (some ind) d rest hvF hrest]
          simp [Option.map]
      · -- parseObjTail on dumped members
        intro kvs s d ws rest hws hkvs
        cases kvs with
        | nil =>
          rw [dumpMembers, List.nil_append, skipWs_ws_append hws,
            skipWs_not (by decide), parseObjTail_rbrace F (by simp)]
          simp
        | cons kv kvs =>
          rw [dumpMembers]
          simp only [List.cons_append, List.append_assoc]
          rw [skipWs_not (by decide), parseObjTail_comma F (by simp)]
          simp only [List.tail_cons]
          rw [skipWs_ws_append (nlPad_ws s d), skipWs_encStr_append]
          have hkvs2 : 1 + jfuel kv.2 + jfuelKVs kvs < F + 1 := by
            simpa [jfuelKVs] using hkvs
          have hv : jfuel kv.2 < F := by omega
          have hnd : noDigitHead
              (dumpMembers s d kvs ++ (ws ++ '\x7d' :: rest)) = true := by
            simpa [List.append_assoc] using
              noDigitHead_members s d kvs ws hws '\x7d' (by decide) rest
          rw [IHM kv.1 kv.2 s d _ hv hnd]
          simp only [Option.bind]
          have hkvs3 : jfuelKVs kvs < F := by
            have := jfuel_pos kv.2
            omega
          rw [IHR kvs s d ws rest hws hkvs3]
          simp [Option.map]

theorem intChars_ne_nil (n : Int) : intChars n ≠ [] := by
  rw [intChars]
  split
  · simp
  · exact natChars_ne_nil n.toNat

theorem jfuel_le_dump : ∀ N : Nat,
    (∀ (w : Jsonable) (s : Option Nat) (d : Nat),
      jfuel w ≤ N → jfuel w ≤ (dumpVal s d w).length) ∧
    (∀ (xs : List Jsonable) (s : Option Nat) (d : Nat),
      jfuelList xs ≤ N → jfuelList xs ≤ (dumpItems s d xs).length) ∧
    (∀ (kvs : List (String × Jsonable)) (s : Option Nat) (d : Nat),
      jfuelKVs kvs ≤ N → jfuelKVs kvs ≤ (dumpMembers s d kvs).length) := by
  intro N
  induction N using Nat.strong_induction_on with
  | _ N IH =>
    rcases N with _ | N
    · refine ⟨?_, ?_, ?_⟩
      · intro w s d hw
        have := jfuel_pos w
        omega
      · intro xs s d hxs
        cases xs with
        | nil => simp [jfuelList]
        | cons x xs =>
          simp only [jfuelList] at hxs
          have := jfuel_pos x
          omega
      · intro kvs s d hk
        cases kvs with
        | nil => simp [jfuelKVs]
        | cons kv kvs =>
          simp only [jfuelKVs] at hk
          have := jfuel_pos kv.2
          omega
    · have IHV := (IH N (Nat.lt_succ_self N)).1
      have IHL := (IH N (Nat.lt_succ_self N)).2.1
      have IHK := (IH N (Nat.lt_succ_self N)).2.2
      refine ⟨?_, ?_, ?_⟩
      · intro w s d hw
        cases w with
        | null => simp [jfuel, dumpVal, nullChars]
        | bool b => cases b <;> simp [jfuel, dumpVal, trueChars, falseChars]
        | num n =>
          have h1 : intChars n ≠ [] := intChars_ne_nil n
          have h2 : 1 ≤ (intChars n).length := by
            cases he : intChars n with
            | nil => exact absurd he h1
            | cons c t => simp
          simp only [jfuel, dumpVal]
          omega
        | str s2 => simp [jfuel, dumpVal, encStr]
        | arr xs =>
          cases xs with
          | nil => simp [jfuel, jfuelList, dumpVal]
          | cons x xs =>
            simp only [jfuel, jfuelList] at hw ⊢
            have h1 := IHV x s (d + 1) (by omega)
            have h2 := IHL xs s (d + 1) (by omega)
            simp only [dumpVal, List.length_cons, List.length_append]
            omega
        | obj kvs =>
          cases kvs with
          | nil => simp [jfuel, jfuelKVs, dumpVal]
          | cons kv kvs =>
            simp only [jfuel, jfuelKVs] at hw ⊢
            have h1 := IHV kv.2 s (d + 1) (by omega)
            have h2 := IHK kvs s (d + 1) (by omega)
            simp only [dumpVal, List.length_cons, List.length_append]
            omega
      · intro xs s d hxs
        cases xs with
        | nil => simp [jfuelList]
        | cons x xs =>
          simp only [jfuelList] at hxs ⊢
          have h1 := IHV x s d (by omega)
          have h2 := IHL xs s d (by omega)
          simp only [dumpItems, List.length_cons, List.length_append]
          omega
      · intro kvs s d hk
        cases kvs with
        | nil => simp [jfuelKVs]
        | cons kv kvs =>
          simp only [jfuelKVs] at hk ⊢
          have h1 := IHV kv.2 s d (by omega)
          have h2 := IHK kvs s d (by omega)
          simp only [dumpMembers, List.length_cons, List.length_append]
          omega

theorem digitCh_ne_nl {k : Nat} (h : k < 10) : digitCh k ≠ '\n' := by
  have h1 := digitCh_toNat h
  have h2 : ('\n').toNat = 10 := by decide
  exact ne_of_toNat_lt (by omega)

theorem dump_getLast_ne_nl (s : Option Nat) (d : Nat) (w : Jsonable) :
    (dumpVal s d w).getLast? ≠ some '\n' := by
  cases w with
  | null => simp only [dumpVal]; decide
  | bool b => cases b <;> (simp only [dumpVal]; decide)
  | num n =>
    simp only [dumpVal]
    rw [intChars]
    split
    · obtain ⟨c, t, hct⟩ := List.exists_cons_of_ne_nil (natChars_ne_nil n.natAbs)
      obtain ⟨k, hk, he⟩ := natChars_getLast n.natAbs
      rw [hct, List.getLast?_cons_cons, ← hct, he]
      simp [digitCh_ne_nl hk]
    · obtain ⟨k, hk, he⟩ := natChars_getLast n.toNat
      rw [he]
      simp [digitCh_ne_nl hk]
  | str s2 =>
    simp only [dumpVal, encStr]
    rw [List.getLast?_concat]
    simp
  | arr xs =>
    cases xs with
    | nil => simp only [dumpVal]; decide
    | cons x xs =>
      simp only [dumpVal]
      rw [← List.cons_append, List.getLast?_concat]
      simp
  | obj kvs =>
    cases kvs with
    | nil => simp only [dumpVal]; decide
    | cons kv kvs =>
      simp only [dumpVal]
      rw [← List.cons_append, List.getLast?_concat]
      simp

theorem insKV_lt {p q : String × Jsonable} (h : strLt p.1 q.1 = true)
    (qs : List (String × Jsonable)) : insKV p (q :: qs) = p :: q :: qs := by
  simp [insKV, h]

theorem sortKVs_sorted (kvs : List (String × Jsonable))
    (h : keysStrictSorted (kvs.map Prod.fst) = true) : sortKVs kvs = kvs := by
  induction kvs with
  | nil => rfl
  | cons p ps ih =>
    cases ps with
    | nil => simp [sortKVs, insKV]
    | cons q qs =>
      simp only [List.map, keysStrictSorted, Bool.and_eq_true] at h
      rw [sortKVs, ih (by simpa [keysStrictSorted] using h.2), insKV_lt h.1]

theorem canon_of_canonical : ∀ N : Nat,
    (∀ w : Jsonable, jfuel w ≤ N → isCanonical w = true → canonJ w = w) ∧
    (∀ xs : List Jsonable, jfuelList xs ≤ N → isCanonicalList xs = true →
      canonList xs = xs) ∧
    (∀ kvs : List (String × Jsonable), jfuelKVs kvs ≤ N →
      isCanonicalKVs kvs = true → canonKVs kvs = kvs) := by
  intro N
  induction N using Nat.strong_induction_on with
  | _ N IH =>
    rcases N with _ | N
    · refine ⟨?_, ?_, ?_⟩
      · intro w hw _
        have := jfuel_pos w
        omega
      · intro xs hxs _
        cases xs with
        | nil => rfl
        | cons x xs =>
          simp only [jfuelList] at hxs
          have := jfuel_pos x
          omega
      · intro kvs hk _
        cases kvs with
        | nil => rfl
        | cons kv kvs =>
          simp only [jfuelKVs] at hk
          have := jfuel_pos kv.2
          omega
    · have IHV := (IH N (Nat.lt_succ_self N)).1
      have IHL := (IH N (Nat.lt_succ_self N)).2.1
      have IHK := (IH N (Nat.lt_succ_self N)).2.2
      refine ⟨?_, ?_, ?_⟩
      · intro w hw hc
        cases w with
        | null => simp [canonJ]
        | bool b => simp [canonJ]
        | num n => simp [canonJ]
        | str s2 => simp [canonJ]
        | arr xs =>
          simp only [jfuel] at hw
          simp only [isCanonical] at hc
          rw [canonJ, IHL xs (by omega) hc]
        | obj kvs =>
          simp only [jfuel] at hw
          simp only [isCanonical, Bool.and_eq_true] at hc
          rw [canonJ, IHK kvs (by omega) hc.2, sortKVs_sorted kvs hc.1]
      · intro xs hxs hc
        cases xs with
        | nil => rfl
        | cons x xs =>
          simp only [jfuelList] at hxs
          simp only [isCanonicalList, Bool.and_eq_true] at hc
          have := jfuel_pos x
          rw [canonList, IHV x (by omega) hc.1, IHL xs (by omega) hc.2]
      · intro kvs hk hc
        cases kvs with
        | nil => rfl
        | cons kv kvs =>
          simp only [jfuelKVs] at hk
          simp only [isCanonicalKVs, Bool.and_eq_true] at hc
          have := jfuel_pos kv.2
          rw [canonKVs, IHV kv.2 (by omega) hc.1, IHK kvs (by omega) hc.2]

theorem canonJ_of_isCanonical (v : Jsonable) (h : isCanonical v = true) :
    canonJ v = v :=
  (canon_of_canonical (jfuel v)).1 v le_rfl h

theorem string_data_mk (l : List Char) : (String.mk l).data = l := rfl

theorem parseJson_dump_nl (s : Option Nat) (w : Jsonable) :
    parseJson (String.mk (dumpVal s 0 w ++ ['\n'])) = some w := by
  have hskip : skipWs (dumpVal s 0 w ++ ['\n']) = dumpVal s 0 w ++ ['\n'] :=
    skipWs_dump_append s 0 w ['\n']
  have hlen : jfuel w ≤ (dumpVal s 0 w ++ ['\n']).length + 1 := by
    have h1 := (jfuel_le_dump (jfuel w)).1 w s 0 le_rfl
    simp only [List.length_append, List.length_cons, List.length_nil]
    omega
  have hmain := (parse_dump_main ((dumpVal s 0 w ++ ['\n']).length + 1)).1 w s 0
    ['\n'] hlen (by decide)
  simp only [parseJson, string_data_mk, hskip, hmain]
  simp [show skipWs ['\n'] = [] from by decide]

theorem parseJson_emitText (compact : Bool) (v : Jsonable) :
    parseJson (emitText compact v) = some (canonJ v) := by
  cases compact
  · exact parseJson_dump_nl (some 2) (canonJ v)
  · exact parseJson_dump_nl none (canonJ v)

/-- Claim C3: rendering a value with compact=false, raw=false and no
effective colorization writes the sorted-key, 2-space-indented JSON
serialization with exactly one trailing newline appended, and the text
deserializes back to a value equal to the rendered one (its canonical
key-sorted form; for values already in canonical dictionary form, back
to the value itself); with compact=true the same sorted-key
serialization with the fixed separator set and no extra whitespace is
emitted, also newline-terminated and round-tripping. -/
theorem c3_render_roundtrip (st : CLIState) (jq : Int) (v : Jsonable)
    (hcol : st.colorize_stdout = false) (hout : st.output_file = none) :
    prettyPrint st jq v (some false) none (some false) =
      .ok [.writeStr .stdout (emitText false v)] ∧
    prettyPrint st jq v (some true) none (some false) =
      .ok [.writeStr .stdout (emitText true v)] ∧
    parseJson (emitText false v) = some (canonJ v) ∧
    parseJson (emitText true v) = some (canonJ v) ∧
    (isCanonical v = true →
      parseJson (emitText false v) = some v ∧
      parseJson (emitText true v) = some v) ∧
    (∃ body, (emitText false v).data = body ++ ['\n'] ∧
      body.getLast? ≠ some '\n') ∧
    (∃ body, (emitText true v).data = body ++ ['\n'] ∧
      body.getLast? ≠ some '\n') := by
  refine ⟨?_, ?_, parseJson_emitText false v, parseJson_emitText true v, ?_, ?_, ?_⟩
  · cases v <;> simp [prettyPrint, Option.getD, hout, emitTo, finalColorize, hcol]
  · cases v <;> simp [prettyPrint, Option.getD, hout, emitTo, finalColorize, hcol]
  · intro hc
    have he := canonJ_of_isCanonical v hc
    constructor
    · rw [parseJson_emitText false v, he]
    · rw [parseJson_emitText true v, he]
  · exact ⟨dumpVal (some 2) 0 (canonJ v), rfl, dump_getLast_ne_nl _ _ _⟩
  · exact ⟨dumpVal none 0 (canonJ v), rfl, dump_getLast_ne_nl _ _ _⟩

/-- Claim C3 witness: a concrete canonical object (sorted keys, nested
array, string and null members) renders to text that parses back to
exactly the same value, in both pretty and compact modes, and the
non-colorized render writes that text to stdout. -/
theorem c3_render_roundtrip_witness :
    parseJson (emitText false
        (Jsonable.obj [("a", .num 1), ("b", .arr [.str "x", .null])])) =
      some (Jsonable.obj [("a", .num 1), ("b", .arr [.str "x", .null])]) ∧
    parseJson (emitText true
        (Jsonable.obj [("a", .num 1), ("b", .arr [.str "x", .null])])) =
      some (Jsonable.obj [("a", .num 1), ("b", .arr [.str "x", .null])]) ∧
    prettyPrint
      { raw := false, compact := false, colorize_stdout := false,
        colorize_stderr := false, output_file := none, encoding := "utf-8" }
      0 (Jsonable.obj [("a", .num 1), ("b", .arr [.str "x", .null])])
      (some false) none (some false) =
      .ok [.writeStr .stdout (emitText false
        (Jsonable.obj [("a", .num 1), ("b", .arr [.str "x", .null])]))] := by
  have h := c3_render_roundtrip
    { raw := false, compact := false, colorize_stdout := false,
      colorize_stderr := false, output_file := none, encoding := "utf-8" }
    0 (Jsonable.obj [("a", .num 1), ("b", .arr [.str "x", .null])]) rfl rfl
  have hc := h.2.2.2.2.1 (by decide)
  exact ⟨hc.1, hc.2, h.1⟩

end LambdaVenv
